import Mathlib

/-!
Verification of the German-English bilingual reader backend
(`src/backend/llm_services/base.py`, `gemini_service.py`, `factory.py`,
`src/backend/app.py`).

The Python code is shallowly embedded:

* JSON values (the payloads handed to / produced by `json.loads`) are the
  inductive type `Json`; JSON numbers are modelled as rationals.
* `json.loads` itself is an abstract parameter `loads : String → Option Json`
  (`none` models a `json.JSONDecodeError`): every theorem below is proved for
  every parser, and concrete witnesses instantiate it with small stubs that
  agree with Python's `json.loads` on the strings actually involved.
* An LLM provider (the abstract methods of `LLMService` implemented by
  `GPTService`/`GeminiService`) is a record of response oracles; theorems
  quantify over it, which in particular makes results provider-independent
  wherever the code makes no provider call.
* Python exceptions that the code does not catch are modelled with
  `Except String`; caught exceptions are folded into the embedded control flow
  exactly where the `try/except` blocks sit in the source.
-/

/-- JSON values, as produced by `json.loads`.  Numbers are modelled as
rationals (the claims under study never depend on float rounding). -/
inductive Json where
  | null : Json
  | bool (b : Bool) : Json
  | num (q : Rat) : Json
  | str (s : String) : Json
  | arr (elems : List Json) : Json
  | obj (fields : List (String × Json)) : Json

/-- Characters stripped by Python's `str.strip()` / matched by `\s`
(ASCII fragment; the data in this code base is ASCII-spaced). -/
def isPySpace (c : Char) : Bool :=
  c = ' ' || c = '\t' || c = '\n' || c = '\r' || c = '\x0b' || c = '\x0c'

/-- Python `str.strip()`: drop whitespace from both ends. -/
def pyStrip (s : String) : String :=
  ⟨((s.data.dropWhile isPySpace).reverse.dropWhile isPySpace).reverse⟩

/-- Python `str.upper()` (ASCII fragment, which covers the speaker-name
lookup table: all its keys and all inputs the claims quantify over are
compared against ASCII uppercase words). -/
def pyUpper (s : String) : String := ⟨s.data.map Char.toUpper⟩

/-- Python `str.lower()` (ASCII fragment). -/
def pyLower (s : String) : String := ⟨s.data.map Char.toLower⟩

mutual

/-- Python `str(x)` on a parsed-JSON value, used by f-string interpolation in
prompt construction.  Container rendering is approximate; it only influences
the text of prompts handed to the abstract provider oracle, never the
control flow any claim depends on. -/
def pyStr : Json → String
  | .null => "None"
  | .bool b => if b then "True" else "False"
  | .num q => toString q
  | .str s => s
  | .arr es => "[" ++ pyStrList es ++ "]"
  | .obj fs => "\x7b" ++ pyStrFields fs ++ "\x7d"

def pyStrList : List Json → String
  | [] => ""
  | [e] => pyStr e
  | e :: es => pyStr e ++ ", " ++ pyStrList es

def pyStrFields : List (String × Json) → String
  | [] => ""
  | [(k, v)] => "\x27" ++ k ++ "\x27: " ++ pyStr v
  | (k, v) :: fs => "\x27" ++ k ++ "\x27: " ++ pyStr v ++ ", " ++ pyStrFields fs

end

/-- An LLM provider: the abstract methods of `LLMService` that concrete
services implement (`_simple_translate`, `_json_translate`,
`get_provider_name`).  The oracles map the prompts (and `max_tokens`) to the
raw response string; sampling temperature is a fixed constant at every call
site and is omitted. -/
structure Provider where
  simpleTranslate : String → Nat → String
  jsonTranslate : String → String → Nat → String
  name : String

/-- A metadata dict (`book_data["metadata"]`), an insertion-ordered
association list exactly like a parsed JSON object. -/
abbrev Metadata := List (String × Json)

/-- Python truthiness of the optional metadata dict (`if metadata:`):
`None` and the empty dict are falsy. -/
def mdTruthy : Option Metadata → Bool
  | none => false
  | some l => !l.isEmpty

/-- `metadata.get(key, default)` rendered through `pyStr` for f-string use. -/
def mdGetStr (md : Metadata) (key : String) (deflt : String) : String :=
  match md.lookup key with
  | some v => pyStr v
  | none => deflt

/-- The fixed lookup table in `LLMService._translate_speaker_name`. -/
def common_translations : List (String × String) :=
  [("CHOR", "CHORUS"), ("ALLE", "ALL"), ("STIMME", "VOICE"), ("SPRECHER", "NARRATOR")]

/-- `LLMService._translate_speaker_name`: a pure lookup, no provider call
(the unused `metadata` parameter of the Python method is kept).  The Python
list of strings is returned as is; the caller wraps it into the attached
JSON value. -/
def translate_speaker_name (text : String) (_metadata : Option Metadata) : List String :=
  [(common_translations.lookup (pyUpper text)).getD text]

/-- The mojibake bytes that sit in front of the CRITICAL prompt sentences in
the source file (the UTF-8 of an emoji decoded as Latin-1 and re-encoded). -/
def alarmMark : String := "ðŸš¨"

/-- The system prompt of `_translate_stage_direction_sentences`. -/
def stage_direction_system_prompt : String :=
  "You are translating stage directions from German drama to English. " ++
  "Preserve all line breaks (\\n) exactly as they appear in the original. " ++
  "Stage directions should be concise and clear. " ++
  "Return ONLY valid JSON of the form: " ++
  "\x7b\"english_sentences\": [\"Translation text\"]\x7d"

/-- The user prompt of `_translate_stage_direction_sentences` (the
metadata-decorated form is used when the metadata dict is truthy). -/
def stage_direction_user_prompt (text : String) (metadata : Option Metadata) : String :=
  let base := "Translate this German stage direction to English: " ++ text
  if mdTruthy metadata then
    "From \x27" ++ mdGetStr (metadata.getD []) "title" "German drama" ++ "\x27 by " ++
      mdGetStr (metadata.getD []) "author" "unknown" ++ ": " ++ base
  else base

/-- The raw provider response obtained inside
`_translate_stage_direction_sentences` (`self._json_translate(..., max_tokens=300)`). -/
def stage_direction_response (P : Provider) (text : String) (metadata : Option Metadata) : String :=
  P.jsonTranslate stage_direction_system_prompt (stage_direction_user_prompt text metadata) 300

/-- `LLMService._translate_stage_direction_sentences`.
`json.loads` failure (`loads = none`) is caught (`except (JSONDecodeError,
KeyError)`) and falls back to `[text]`; a parsed dict answers
`result.get("english_sentences", [text])`; `.get` on a parsed non-dict raises
an uncaught `AttributeError`, modelled as `Except.error`. -/
def translate_stage_direction_sentences (P : Provider) (loads : String → Option Json)
    (text : String) (metadata : Option Metadata) : Except String Json :=
  match loads (stage_direction_response P text metadata) with
  | none => .ok (Json.arr [Json.str text])
  | some (Json.obj fields) =>
      .ok ((fields.lookup "english_sentences").getD (Json.arr [Json.str text]))
  | some _ => .error "AttributeError"

/-- `LLMService._build_context_prompt`. -/
def build_context_prompt (metadata : Option Metadata) (paragraph_context : String)
    (german_sentence : String) (sentence_index : Nat) : String :=
  let head : List String :=
    if mdTruthy metadata then
      let md := metadata.getD []
      ["BOOK CONTEXT:"] ++
      (match md.lookup "title" with | some v => ["Title: " ++ pyStr v] | none => []) ++
      (match md.lookup "author" with | some v => ["Author: " ++ pyStr v] | none => []) ++
      (match md.lookup "description" with | some v => ["Description: " ++ pyStr v] | none => []) ++
      [""]
    else ["BOOK CONTEXT: German Literary Text", ""]
  let parts := head ++
    ["PARAGRAPH CONTEXT (for understanding tone and style):", paragraph_context, "",
     "TARGET SENTENCE TO TRANSLATE (sentence #" ++ toString (sentence_index + 1) ++
       " in the paragraph):",
     german_sentence, "",
     "Translate ONLY the target sentence using the book and paragraph context for better literary quality.",
     alarmMark ++ " CRITICAL: If the target sentence contains \\n characters, you MUST preserve them in the EXACT same positions in your English translation.",
     "Count the \\n characters in the German text and ensure your English has the same number of \\n characters."]
  String.intercalate "\n" parts

/-- The system prompt of `_translate_and_split_with_context`. -/
def context_system_prompt (sentence_type : String) : String :=
  alarmMark ++ " CRITICAL: You are translating German literature (" ++ sentence_type ++
  " text) with paragraph context for better quality. " ++
  "TRANSLATE ONLY THE SPECIFIED SENTENCE - do not translate the entire paragraph. " ++
  "Use the paragraph context to understand tone, style, and meaning, but return only the translation of the target sentence. " ++
  "PRESERVE THE PARAGRAPH STRUCTURE - do not merge with sentences from other paragraphs. " ++
  alarmMark ++ alarmMark ++ alarmMark ++ " ABSOLUTE CRITICAL REQUIREMENT: PRESERVE LINE BREAKS " ++
  alarmMark ++ alarmMark ++ alarmMark ++ " " ++
  "The German text contains \\n characters that represent poetry line breaks. " ++
  "YOU MUST PRESERVE EVERY SINGLE \\n CHARACTER IN THE EXACT SAME POSITION. " ++
  "COUNT the \\n characters in the German text and ensure your English has THE SAME NUMBER of \\n characters. " ++
  "EXAMPLE: German \x27Habe nun, ach! Philosophie,\\nJuristerei und Medizin\x27 MUST become English \x27I have now, alas! Philosophy,\\nJurisprudence and Medicine\x27 " ++
  "DO NOT REMOVE LINE BREAKS. DO NOT MERGE LINES. PRESERVE \\n EXACTLY. " ++
  "For " ++ sentence_type ++ " text, maintain appropriate style and formatting conventions. " ++
  "You may split ONE German sentence into multiple English sentences for clarity, " ++
  "but maintain the literary style and emotional tone. " ++
  "Convert German quotation marks (Â»Â«) to English style (\"\"). " ++
  "Return ONLY valid JSON of the form: " ++
  "\x7b\"english_sentences\": [\"Sentence 1.\", \"Sentence 2.\"]\x7d"

/-- The raw provider response obtained inside
`_translate_and_split_with_context` (`self._json_translate(..., max_tokens=400)`). -/
def context_response (P : Provider) (german_sentence paragraph_context : String)
    (sentence_index : Nat) (metadata : Option Metadata) (sentence_type : String) : String :=
  P.jsonTranslate (context_system_prompt sentence_type)
    (build_context_prompt metadata paragraph_context german_sentence sentence_index) 400

/-- `LLMService._translate_and_split_with_context`.  The whole parse-and-index
step sits under `except Exception`, so a parse failure, a parsed non-dict
(`TypeError`) or a missing key (`KeyError`) all fall back to
`[response.strip()]`; on success `data["english_sentences"]` is returned
verbatim, whatever JSON value it is. -/
def translate_and_split_with_context (P : Provider) (loads : String → Option Json)
    (german_sentence paragraph_context : String) (sentence_index : Nat)
    (metadata : Option Metadata) (sentence_type : String) : Json :=
  match loads (context_response P german_sentence paragraph_context sentence_index metadata sentence_type) with
  | some (Json.obj fields) =>
      match fields.lookup "english_sentences" with
      | some v => v
      | none => Json.arr [Json.str (pyStrip
          (context_response P german_sentence paragraph_context sentence_index metadata sentence_type))]
  | some _ => Json.arr [Json.str (pyStrip
      (context_response P german_sentence paragraph_context sentence_index metadata sentence_type))]
  | none => Json.arr [Json.str (pyStrip
      (context_response P german_sentence paragraph_context sentence_index metadata sentence_type))]

/-- A sentence of the structured page data: the `"text"` value, the optional
`"type"` value, and the (possibly pre-existing) `"english_translation"`
value.  Other keys of the sentence dict are never read or written by the
translation engine and are carried unchanged by the deep copy; they are
elided from the value-level model (the heap-level model below keeps full
generality). -/
structure SentenceV where
  text : String
  type : Option String
  english_translation : Option Json

/-- A paragraph: its ordered `"sentences"` list. -/
structure ParagraphV where
  sentences : List SentenceV

/-- A page (`page_data`): its ordered `"paragraphs"` list. -/
structure PageDataV where
  paragraphs : List ParagraphV

/-- The input to `LLMService.translate`: `page_data` plus optional
`metadata`. -/
structure BookData where
  metadata : Option Metadata
  page_data : PageDataV

/-- The standardized response of `LLMService._translate_book_data`. -/
structure TranslateResponse where
  page_data : PageDataV
  provider : String
  metadata : Option Metadata

/-- The per-sentence `type`-dispatch of `_translate_book_data` (lines 85-96
of `base.py`), factored over the sentence's text and resolved type.  The
stage-direction branch can raise an uncaught `AttributeError`. -/
def translateSentenceCore (P : Provider) (loads : String → Option Json)
    (metadata_context : Option Metadata) (full_paragraph_text : String)
    (sent_idx : Nat) (german_text : String) (sentence_type : String) :
    Except String Json :=
  if sentence_type = "stage_direction" then
    translate_stage_direction_sentences P loads german_text metadata_context
  else if sentence_type = "speaker_name" then
    .ok (Json.arr ((translate_speaker_name german_text metadata_context).map Json.str))
  else
    .ok (translate_and_split_with_context P loads german_text full_paragraph_text
      sent_idx metadata_context sentence_type)

/-- One iteration of the sentence loop: translate and attach the
`english_translation` value (overwriting any pre-existing one, as the dict
assignment does). -/
def translateSentenceV (P : Provider) (loads : String → Option Json)
    (metadata_context : Option Metadata) (full_paragraph_text : String)
    (sent_idx : Nat) (s : SentenceV) : Except String SentenceV :=
  match translateSentenceCore P loads metadata_context full_paragraph_text
      sent_idx s.text (s.type.getD "narration") with
  | .error e => .error e
  | .ok eng => .ok { s with english_translation := some eng }

/-- A Python `for` loop with `enumerate`, propagating the first uncaught
exception (so later iterations never run once one raises). -/
def mapWithIdxExcept (f : Nat → α → Except String β) : Nat → List α → Except String (List β)
  | _, [] => .ok []
  | i, a :: as =>
    match f i a with
    | .error e => .error e
    | .ok b =>
      match mapWithIdxExcept f (i + 1) as with
      | .error e => .error e
      | .ok bs => .ok (b :: bs)

/-- A plain Python `for` loop over a list, propagating the first uncaught
exception. -/
def mapExcept (f : α → Except String β) : List α → Except String (List β)
  | [] => .ok []
  | a :: as =>
    match f a with
    | .error e => .error e
    | .ok b =>
      match mapExcept f as with
      | .error e => .error e
      | .ok bs => .ok (b :: bs)

/-- The context window of a paragraph: the sentence texts joined with a
single space (`full_paragraph_text` in `_translate_book_data`). -/
def full_paragraph_context (paragraph : ParagraphV) : String :=
  String.intercalate " " (paragraph.sentences.map (·.text))

/-- The paragraph loop body of `_translate_book_data`: compute the
full-paragraph context, then translate each sentence in order. -/
def translateParagraphV (P : Provider) (loads : String → Option Json)
    (metadata_context : Option Metadata) (paragraph : ParagraphV) :
    Except String ParagraphV :=
  match mapWithIdxExcept
      (translateSentenceV P loads metadata_context (full_paragraph_context paragraph))
      0 paragraph.sentences with
  | .error e => .error e
  | .ok newSentences => .ok { sentences := newSentences }

/-- `LLMService._translate_metadata_field`. -/
def translate_metadata_field (P : Provider) (v : Json) : String :=
  P.simpleTranslate
    ("Translate the following from German to English. Return only the translation text: " ++ pyStr v)
    200

/-- The metadata-translation block of `_translate_book_data` (lines 52-66):
only `title` and `author` are translated, `description` and `genre` are
copied verbatim, and every other key is dropped. -/
def translated_metadata (P : Provider) (original_metadata : Metadata) : Metadata :=
  (match original_metadata.lookup "title" with
   | some v => [("title", Json.str (translate_metadata_field P v))]
   | none => []) ++
  (match original_metadata.lookup "author" with
   | some v => [("author", Json.str (translate_metadata_field P v))]
   | none => []) ++
  (match original_metadata.lookup "description" with
   | some v => [("description", v)]
   | none => []) ++
  (match original_metadata.lookup "genre" with
   | some v => [("genre", v)]
   | none => [])

/-- `LLMService._translate_book_data`.  The response's `page_data` starts as
`json.loads(json.dumps(book_data["page_data"]))`; on pure values that
round-trip is the identity (the heap-level model below accounts for its
allocation behaviour).  The paragraph/sentence loops then attach the
translations in place. -/
def translate_book_data (P : Provider) (loads : String → Option Json)
    (book_data : BookData) : Except String TranslateResponse :=
  match mapExcept (translateParagraphV P loads book_data.metadata)
      book_data.page_data.paragraphs with
  | .error e => .error e
  | .ok newParagraphs =>
    .ok { page_data := { paragraphs := newParagraphs },
          provider := P.name,
          metadata := book_data.metadata.map (translated_metadata P) }

/-- `LLMService.translate`: the typed model always carries a `page_data`
field, so the `ValueError` branch for unstructured input is unreachable and
the call forwards to `_translate_book_data`. -/
def LLMService.translate (P : Provider) (loads : String → Option Json)
    (text : BookData) : Except String TranslateResponse :=
  translate_book_data P loads text

/-- Match a literal list of characters at the head of the input and return
the remaining suffix (the building block of the regex scanners below). -/
def dropLit : List Char → List Char → Option (List Char)
  | [], l => some l
  | _ :: _, [] => none
  | a :: as, b :: bs => if a = b then dropLit as bs else none

/-- Does the literal occur at the head of the input? -/
def startsWithLit (lit l : List Char) : Bool := (dropLit lit l).isSome

/-- Does the literal occur anywhere in the input? -/
def containsLit (lit : List Char) : List Char → Bool
  | [] => lit.isEmpty
  | c :: rest => startsWithLit lit (c :: rest) || containsLit lit rest

theorem dropLit_length {lit l r : List Char} (h : dropLit lit l = some r) :
    r.length + lit.length = l.length := by
  induction lit generalizing l with
  | nil => simp [dropLit] at h; simp [h]
  | cons a as ih =>
    cases l with
    | nil => simp [dropLit] at h
    | cons b bs =>
      by_cases hab : a = b
      · simp [dropLit, hab] at h
        have := ih h
        simp [List.length_cons]
        omega
      · simp [dropLit, hab] at h

theorem dropWhile_length_le (p : Char → Bool) (l : List Char) :
    (l.dropWhile p).length ≤ l.length := by
  induction l with
  | nil => simp
  | cons c rest ih =>
    by_cases h : p c
    · simp [List.dropWhile, h]; omega
    · simp [List.dropWhile, h]

/-- The characters of the closing code fence. -/
def fenceLit : List Char := '`' :: '`' :: '`' :: []

/-- The characters of the opening `json`-labeled code fence. -/
def fenceJsonLit : List Char := '`' :: '`' :: '`' :: 'j' :: 's' :: 'o' :: 'n' :: []

/-- The quoted key the second regex of `_extract_json_from_response`
requires: `"english_sentences"` (quotes included). -/
def englishSentencesLit : List Char := '"' :: "english_sentences".data ++ ['"']

/-- Resolve the lazy `.*?` of `` r'```json\s*(\{.*?\})\s*``' `` + `` ` `` :
walk the characters after the opening `{` and stop at the first `}` that is
followed (after whitespace) by a closing fence.  Returns the group body
(through that `}`) and the suffix after the closing fence. -/
def findClose : List Char → Option (List Char × List Char)
  | [] => none
  | c :: rest =>
    if c = '}' then
      match dropLit fenceLit (rest.dropWhile isPySpace) with
      | some rem => some ([c], rem)
      | none =>
        match findClose rest with
        | some (grp, rem) => some (c :: grp, rem)
        | none => none
    else
      match findClose rest with
      | some (grp, rem) => some (c :: grp, rem)
      | none => none

theorem findClose_length {l grp rem : List Char} (h : findClose l = some (grp, rem)) :
    rem.length < l.length := by
  induction l generalizing grp rem with
  | nil => simp [findClose] at h
  | cons c rest ih =>
    by_cases hc : c = '}'
    · simp only [findClose, if_pos hc] at h
      cases hdl : dropLit fenceLit (rest.dropWhile isPySpace) with
      | some rem' =>
        rw [hdl] at h
        have h1 := dropLit_length hdl
        have h2 := dropWhile_length_le isPySpace rest
        simp at h
        simp [fenceLit] at h1
        simp [← h.2, List.length_cons]
        omega
      | none =>
        rw [hdl] at h
        cases hfc : findClose rest with
        | some pr =>
          rw [hfc] at h
          obtain ⟨g2, r2⟩ := pr
          simp at h
          have := ih hfc
          simp [← h.2, List.length_cons]
          omega
        | none => rw [hfc] at h; simp at h
    · simp only [findClose, if_neg hc] at h
      cases hfc : findClose rest with
      | some pr =>
        rw [hfc] at h
        obtain ⟨g2, r2⟩ := pr
        simp at h
        have := ih hfc
        simp [← h.2, List.length_cons]
        omega
      | none => rw [hfc] at h; simp at h

/-- `re.findall(r'```json\s*(\{.*?\})\s*```', text, re.DOTALL)`: scan left to
right; at each occurrence of ```` ```json ````, skip whitespace, require an
opening `{`, and lazily close the group at the first `}` followed
(after whitespace) by a closing fence; on success resume after the whole
match, otherwise advance by one character. -/
def scanFencedAux : Nat → List Char → List (List Char)
  | 0, _ => []
  | _ + 1, [] => []
  | fuel + 1, c :: rest =>
    match dropLit fenceJsonLit (c :: rest) with
    | some afterTag =>
      match afterTag.dropWhile isPySpace with
      | '{' :: body =>
        match findClose body with
        | some (grp, rem) => ('{' :: grp) :: scanFencedAux fuel rem
        | none => scanFencedAux fuel rest
      | _ => scanFencedAux fuel rest
    | none => scanFencedAux fuel rest

/-- The scan driver: every recursive call of `scanFencedAux` consumes at
least one character of the input (`findClose_length`, `dropLit_length`,
`dropWhile_length_le`), so `length + 1` units of fuel always complete the
scan; the fuel only makes the recursion structural. -/
def scanFenced (l : List Char) : List (List Char) := scanFencedAux (l.length + 1) l

/-- `re.findall(r'(\{[^{}]*"english_sentences"[^{}]*\})', text, re.DOTALL)`:
at each `{`, the match extends over the following brace-free run and must be
closed by `}` as the very next brace, with the quoted key occurring inside
the run; on success resume after the `}`, otherwise advance by one
character. -/
def scanBraceAux : Nat → List Char → List (List Char)
  | 0, _ => []
  | _ + 1, [] => []
  | fuel + 1, c :: rest =>
    if c = '{' then
      let interior := rest.takeWhile (fun x => x ≠ '{' && x ≠ '}')
      match rest.dropWhile (fun x => x ≠ '{' && x ≠ '}') with
      | '}' :: tl =>
        if containsLit englishSentencesLit interior then
          ('{' :: interior ++ ['}']) :: scanBraceAux fuel tl
        else scanBraceAux fuel rest
      | _ => scanBraceAux fuel rest
    else scanBraceAux fuel rest

/-- The scan driver; as for `scanFenced`, `length + 1` units of fuel always
complete the scan. -/
def scanBrace (l : List Char) : List (List Char) := scanBraceAux (l.length + 1) l

/-- The candidate groups of the first strategy of
`GeminiService._extract_json_from_response`, as strings. -/
def fencedCandidates (text : String) : List String :=
  (scanFenced text.data).map (fun l => ⟨l⟩)

/-- The candidate groups of the second strategy, as strings. -/
def braceCandidates (text : String) : List String :=
  (scanBrace text.data).map (fun l => ⟨l⟩)

/-- `GeminiService._extract_json_from_response`: try each fenced candidate in
order and return the first that `json.loads` accepts; failing that, try each
brace-delimited candidate in order; failing that, return the stripped raw
response.  (The `if matches:` guards of the source are no-ops around the
loops: an empty candidate list makes its loop find nothing.) -/
def extract_json_from_response (loads : String → Option Json) (response_text : String) : String :=
  match (fencedCandidates response_text).find? (fun m => (loads m).isSome) with
  | some m => m
  | none =>
    match (braceCandidates response_text).find? (fun m => (loads m).isSome) with
    | some m => m
    | none => pyStrip response_text

/-- The process environment (`os.getenv`): `none` models an unset variable. -/
abbrev Env := String → Option String

/-- Python truthiness of an `os.getenv` result (`if not api_key:`): unset
and empty string are both falsy. -/
def envTruthy : Option String → Bool
  | none => false
  | some s => !s.isEmpty

/-- `LLMFactory.test_provider_availability`: a pure configuration check —
the only data consulted is the credential variable of the named provider
(no network access is even expressible here). -/
def test_provider_availability (env : Env) (provider : String) : Bool :=
  if provider = "openai" then envTruthy (env "OPENAI_API_KEY")
  else if provider = "google" then envTruthy (env "GEMINI_API_KEY")
  else false

/-- `LLMFactory.detect_available_providers`. -/
def detect_available_providers (env : Env) : List String :=
  (if test_provider_availability env "openai" then ["openai"] else []) ++
  (if test_provider_availability env "google" then ["google"] else [])

/-- `get_provider_info()` data. -/
structure ProviderInfo where
  provider : String
  model : String
  description : String
  deriving DecidableEq

/-- A constructed service instance (`GPTService` / `GeminiService` with
their constructor arguments). -/
inductive ServiceInst where
  | gpt (api_key model : String)
  | gemini (api_key model : String)
  deriving DecidableEq

/-- `get_provider_info` of the two concrete services. -/
def ServiceInst.get_provider_info : ServiceInst → ProviderInfo
  | .gpt _ m => ⟨"openai", m, "OpenAI " ++ m⟩
  | .gemini _ m => ⟨"google", m, "Google " ++ m⟩

/-- `LLMFactory.create_service`: raises `ValueError` (modelled as
`Except.error`) when the credential is missing or the provider unknown. -/
def create_service (env : Env) (provider : String) : Except String ServiceInst :=
  if provider = "openai" then
    if envTruthy (env "OPENAI_API_KEY") then
      .ok (.gpt ((env "OPENAI_API_KEY").getD "") ((env "OPENAI_MODEL").getD "gpt-4o-mini"))
    else .error "OPENAI_API_KEY environment variable is required for OpenAI provider"
  else if provider = "google" then
    if envTruthy (env "GEMINI_API_KEY") then
      .ok (.gemini ((env "GEMINI_API_KEY").getD "") ((env "GEMINI_MODEL").getD "gemini-1.5-flash"))
    else .error "GEMINI_API_KEY environment variable is required for Gemini provider"
  else .error ("Unsupported LLM provider: " ++ provider)

/-- The process-wide mutable state of `app.py`: the active client
(`llm_service`) and its info (`current_provider`). -/
structure AppState where
  llm_service : Option ServiceInst
  current_provider : Option ProviderInfo
  deriving DecidableEq

/-- The outcome of the `switch_provider` endpoint. -/
inductive SwitchResult where
  | badRequest (error : String)
  | success (provider : ProviderInfo) (message : String)
  deriving DecidableEq

/-- `app.switch_provider` (`POST /api/llm/provider`).  The request body is an
optional parsed-JSON dict.  A missing body, an empty dict or a missing
`provider` key answer the 400 `Provider name is required`; an unavailable
(processed) name answers 400 without touching the globals; otherwise the
service is created and both globals are replaced.  `.strip()` on a non-string
`provider` value raises `AttributeError`, caught by the handler's
`except Exception` into a 400 — also without touching the globals. -/
def switch_provider (env : Env) (st : AppState) (body : Option (List (String × Json))) :
    AppState × SwitchResult :=
  match body with
  | none => (st, .badRequest "Provider name is required")
  | some data =>
    if data.isEmpty then (st, .badRequest "Provider name is required")
    else
      match data.lookup "provider" with
      | none => (st, .badRequest "Provider name is required")
      | some (Json.str raw) =>
        let provider_name := pyLower (pyStrip raw)
        let available := detect_available_providers env
        if !available.contains provider_name then
          (st, .badRequest ("Provider " ++ provider_name ++ " is not available"))
        else
          match create_service env provider_name with
          | .ok new_service =>
            let info := new_service.get_provider_info
            ({ llm_service := some new_service, current_provider := some info },
             .success info ("Successfully switched to " ++ info.provider))
          | .error e => (st, .badRequest e)
      | some _ => (st, .badRequest "AttributeError")

/-- The outcome of the `text_to_speech` endpoint. -/
inductive TTSResult where
  | serviceUnavailable
  | badRequest (error : String)
  | internalError (error : String)
  | success (audio : List UInt8)
  deriving DecidableEq

/-- The fixed voice whitelist of `app.text_to_speech`. -/
def valid_voices : List String := ["alloy", "echo", "fable", "onyx", "nova", "shimmer"]

/-- `app.text_to_speech` (`POST /api/tts/speak`).  `speech` is the active
provider's `generate_speech` oracle (its TTS API call); validation happens
before it is ever consulted.  A JSON boolean speed behaves as its Python
numeric value (`bool` is an `int` subclass); a non-numeric speed raises
`TypeError` at the comparison, uncaught by the handler (500). -/
def text_to_speech (speech : String → String → Rat → Except String (List UInt8))
    (st : AppState) (body : Option (List (String × Json))) : TTSResult :=
  match st.llm_service with
  | none => .serviceUnavailable
  | some _ =>
    match body with
    | none => .badRequest "Request body is required"
    | some data =>
      let textVal := (data.lookup "text").getD (Json.str "")
      match textVal with
      | Json.str rawText =>
        let text := pyStrip rawText
        let voiceVal := (data.lookup "voice").getD (Json.str "alloy")
        let speedVal := (data.lookup "speed").getD (Json.num 1)
        if text.isEmpty then .badRequest "Text cannot be empty"
        else
          match voiceVal with
          | Json.str voice =>
            if !valid_voices.contains voice then
              .badRequest "Invalid voice. Must be one of: alloy, echo, fable, onyx, nova, shimmer"
            else
              match speedVal with
              | Json.num speed =>
                if !(0.25 ≤ speed && speed ≤ 4) then
                  .badRequest "Speed must be between 0.25 and 4.0"
                else
                  match speech text voice speed with
                  | .ok audio => .success audio
                  | .error e => .badRequest ("Text-to-speech failed: " ++ e)
              | Json.bool b =>
                let speed : Rat := if b then 1 else 0
                if !(0.25 ≤ speed && speed ≤ 4) then
                  .badRequest "Speed must be between 0.25 and 4.0"
                else
                  match speech text voice speed with
                  | .ok audio => .success audio
                  | .error e => .badRequest ("Text-to-speech failed: " ++ e)
              | _ => .internalError "TypeError"
          | _ =>
            -- a non-string voice value is never equal to any whitelist entry,
            -- so `voice not in valid_voices` holds and the 400 is answered
            .badRequest "Invalid voice. Must be one of: alloy, echo, fable, onyx, nova, shimmer"
      | _ => .internalError "AttributeError"

/-- A node of the Python object heap: a JSON-shaped value whose containers
hold addresses of their children (so aliasing is expressible). -/
inductive HNode where
  | hnull
  | hbool (b : Bool)
  | hnum (q : Rat)
  | hstr (s : String)
  | harr (elems : List Nat)
  | hobj (fields : List (String × Nat))

/-- The child addresses of a heap node. -/
def HNode.children : HNode → List Nat
  | .harr es => es
  | .hobj fs => fs.map (·.2)
  | _ => []

/-- The heap: the node at address `a` is `h.get? a`; allocation appends. -/
abbrev Heap := List HNode

/-- Fueled decoding of a heap object into a pure JSON value: the model of
`json.dumps` (which rejects cyclic data, modelled by fuel exhaustion). -/
def readVal : Nat → Heap → Nat → Option Json
  | 0, _, _ => none
  | fuel + 1, h, a =>
    match h.get? a with
    | some .hnull => some .null
    | some (.hbool b) => some (.bool b)
    | some (.hnum q) => some (.num q)
    | some (.hstr s) => some (.str s)
    | some (.harr es) => (es.mapM (readVal fuel h)).map Json.arr
    | some (.hobj fs) =>
        (fs.mapM (fun kv => (readVal fuel h kv.2).map (fun v => (kv.1, v)))).map Json.obj
    | none => none

mutual

/-- Allocate a pure JSON value in the heap, returning the extended heap and
the address of the root: the model of `json.loads` (all nodes fresh). -/
def storeVal : Json → Heap → Heap × Nat
  | .null, h => (h ++ [.hnull], h.length)
  | .bool b, h => (h ++ [.hbool b], h.length)
  | .num q, h => (h ++ [.hnum q], h.length)
  | .str s, h => (h ++ [.hstr s], h.length)
  | .arr vs, h =>
      let (h1, addrs) := storeList vs h
      (h1 ++ [.harr addrs], h1.length)
  | .obj fs, h =>
      let (h1, fas) := storeFields fs h
      (h1 ++ [.hobj fas], h1.length)

def storeList : List Json → Heap → Heap × List Nat
  | [], h => (h, [])
  | v :: vs, h =>
      let (h1, a) := storeVal v h
      let (h2, as) := storeList vs h1
      (h2, a :: as)

def storeFields : List (String × Json) → Heap → Heap × List (String × Nat)
  | [], h => (h, [])
  | kv :: fs, h =>
      let (h1, a) := storeVal kv.2 h
      let (h2, fas) := storeFields fs h1
      (h2, (kv.1, a) :: fas)

end

/-- `obj[key]` on a heap object: the address of the field's value. -/
def getField (h : Heap) (a : Nat) (k : String) : Option Nat :=
  match h.get? a with
  | some (.hobj fs) => fs.lookup k
  | _ => none

/-- Read a string node. -/
def getStr (h : Heap) (a : Nat) : Option String :=
  match h.get? a with
  | some (.hstr s) => some s
  | _ => none

/-- Read a list node (its element addresses). -/
def getArr (h : Heap) (a : Nat) : Option (List Nat) :=
  match h.get? a with
  | some (.harr es) => some es
  | _ => none

/-- `dict[key] = value` on field lists: replace in place or append. -/
def setFieldList : List (String × Nat) → String → Nat → List (String × Nat)
  | [], k, v => [(k, v)]
  | (k', v') :: fs, k, v =>
      if k' = k then (k, v) :: fs else (k', v') :: setFieldList fs k v

/-- `obj[key] = value` on the heap: mutate the object node at `a`. -/
def setField (h : Heap) (a : Nat) (k : String) (v : Nat) : Heap :=
  match h.get? a with
  | some (.hobj fs) => h.set a (.hobj (setFieldList fs k v))
  | _ => h

/-- Heap-level model of one iteration of the sentence loop of
`_translate_book_data`: read `sentence["text"]` and `sentence.get("type",
"narration")` from the (copied) sentence dict, compute the translation with
the shared value-level dispatch, allocate the fresh result (the value either
just produced by `json.loads` on the provider response, or a freshly built
Python list), and assign it to `sentence["english_translation"]`. -/
def translateSentenceH (P : Provider) (loads : String → Option Json)
    (metadata_context : Option Metadata) (full_paragraph_text : String)
    (sent_idx : Nat) (h : Heap) (sa : Nat) : Option Heap :=
  match getField h sa "text" with
  | none => none
  | some ta =>
    match getStr h ta with
    | none => none
    | some german_text =>
      match (match getField h sa "type" with
             | some tya => getStr h tya
             | none => some "narration") with
      | none => none
      | some sentence_type =>
        match (translateSentenceCore P loads metadata_context full_paragraph_text
               sent_idx german_text sentence_type).toOption with
        | none => none
        | some eng =>
          match storeVal eng h with
          | (h1, ea) => some (setField h1 sa "english_translation" ea)

/-- Read the texts of all sentences of a paragraph (for the context join). -/
def sentenceTexts (h : Heap) (sas : List Nat) : Option (List String) :=
  sas.mapM (fun sa => do getStr h (← getField h sa "text"))

/-- The inner (enumerated) sentence loop. -/
def translateSentencesH (P : Provider) (loads : String → Option Json)
    (metadata_context : Option Metadata) (full_paragraph_text : String) :
    Nat → List Nat → Heap → Option Heap
  | _, [], h => some h
  | i, sa :: rest, h =>
    match translateSentenceH P loads metadata_context full_paragraph_text i h sa with
    | none => none
    | some h' => translateSentencesH P loads metadata_context full_paragraph_text (i + 1) rest h'

/-- The paragraph loop body: gather the context, then walk the sentences. -/
def translateParagraphH (P : Provider) (loads : String → Option Json)
    (metadata_context : Option Metadata) (h : Heap) (pa : Nat) : Option Heap :=
  match getField h pa "sentences" with
  | none => none
  | some sarr =>
    match getArr h sarr with
    | none => none
    | some sas =>
      match sentenceTexts h sas with
      | none => none
      | some texts =>
        translateSentencesH P loads metadata_context (String.intercalate " " texts) 0 sas h

/-- The outer paragraph loop. -/
def translateParagraphsH (P : Provider) (loads : String → Option Json)
    (metadata_context : Option Metadata) : List Nat → Heap → Option Heap
  | [], h => some h
  | pa :: rest, h =>
    match translateParagraphH P loads metadata_context h pa with
    | none => none
    | some h' => translateParagraphsH P loads metadata_context rest h'

/-- Heap-level model of `_translate_book_data`'s effect on `page_data`:
`json.loads(json.dumps(book_data["page_data"]))` becomes a decode of the
input region followed by a store into fresh addresses, after which the
loops mutate only the copy.  The metadata is only decoded (read) for prompt
context; the translated-metadata dict of the response is a fresh value-level
structure (see `translate_book_data`) with no heap footprint on the input.
Returns the final heap and the address of the response's `page_data`. -/
def translate_book_data_heap (P : Provider) (loads : String → Option Json)
    (fuel : Nat) (h : Heap) (bookA : Nat) : Option (Heap × Nat) :=
  match getField h bookA "page_data" with
  | none => none
  | some pdA =>
    match readVal fuel h pdA with
    | none => none
    | some pdV =>
      match storeVal pdV h with
      | (h1, copyA) =>
        match (match getField h bookA "metadata" with
               | some ma =>
                 match readVal fuel h ma with
                 | some (Json.obj fs) => some (some fs)
                 | _ => none
               | none => some (none : Option Metadata)) with
        | none => none
        | some metadata_context =>
          match getField h1 copyA "paragraphs" with
          | none => none
          | some parrA =>
            match getArr h1 parrA with
            | none => none
            | some pas =>
              match translateParagraphsH P loads metadata_context pas h1 with
              | none => none
              | some h2 => some (h2, copyA)

/-- The set of addresses reachable from `a` in at most `fuel` steps. -/
def reachAddrs : Nat → Heap → Nat → List Nat
  | 0, _, _ => []
  | fuel + 1, h, a =>
    a :: (match h.get? a with
          | some nd => nd.children.flatMap (reachAddrs fuel h)
          | none => [])

theorem hget_none_of_le {α} : ∀ (l : List α) (i : Nat), l.length ≤ i → l.get? i = none
  | [], _, _ => rfl
  | _ :: _, 0, h => by simp at h
  | _ :: as, i + 1, h => by
    simp only [List.get?]
    exact hget_none_of_le as i (by simp at h; omega)

theorem hget_append_lt {α} : ∀ (l l' : List α) (i : Nat), i < l.length →
    (l ++ l').get? i = l.get? i
  | [], _, _, h => by simp at h
  | _ :: _, _, 0, _ => rfl
  | _ :: as, l', i + 1, h => by
    simp only [List.cons_append, List.get?]
    exact hget_append_lt as l' i (by simp at h; omega)

theorem hget_append_self {α} : ∀ (l : List α) (x : α), (l ++ [x]).get? l.length = some x
  | [], _ => rfl
  | a :: as, x => by
    simp only [List.cons_append, List.length_cons, List.get?]
    exact hget_append_self as x

theorem hget_set_ne {α} : ∀ (l : List α) (i j : Nat) (x : α), i ≠ j →
    (l.set j x).get? i = l.get? i
  | [], _, _, _, _ => by simp
  | _ :: _, 0, 0, _, h => absurd rfl h
  | _ :: _, 0, _ + 1, _, _ => rfl
  | _ :: _, _ + 1, 0, _, _ => rfl
  | _ :: as, i + 1, j + 1, x, h => by
    simp only [List.set, List.get?]
    exact hget_set_ne as i j x (by omega)

theorem hget_set_self {α} : ∀ (l : List α) (j : Nat) (x : α), j < l.length →
    (l.set j x).get? j = some x
  | [], j, _, h => by simp at h
  | _ :: _, 0, _, _ => rfl
  | _ :: as, j + 1, x, h => by
    simp only [List.set, List.get?]
    exact hget_set_self as j x (by simp at h; omega)

theorem lookup_val_mem {β} : ∀ (l : List (String × β)) (k : String) (b : β),
    l.lookup k = some b → b ∈ l.map (·.2)
  | [], k, b, h => by simp [List.lookup] at h
  | (k', v') :: rest, k, b, h => by
    cases hk : (k == k') with
    | true => simp [List.lookup, hk] at h; simp [h]
    | false =>
      simp only [List.lookup, hk] at h
      simpa using Or.inr (lookup_val_mem rest k b h)

/-- Addresses below `h₀.length` hold exactly the nodes they held in `h₀`. -/
def PrefixEq (h₀ h : Heap) : Prop := ∀ i, i < h₀.length → h.get? i = h₀.get? i

/-- Every node stored at an address `≥ n` has all its children `≥ n`. -/
def RegionGE (n : Nat) (h : Heap) : Prop :=
  ∀ i, n ≤ i → ∀ nd, h.get? i = some nd → ∀ c ∈ nd.children, n ≤ c

/-- The invariant maintained by the whole translation pass over the heap
`h₀` it started from: the heap only grew, the pre-existing cells are
untouched, and the new region never points back into the old one. -/
def HInv (h₀ h : Heap) : Prop :=
  h₀.length ≤ h.length ∧ PrefixEq h₀ h ∧ RegionGE h₀.length h

theorem RegionGE_init (h : Heap) : RegionGE h.length h := by
  intro i hi nd hnd
  rw [hget_none_of_le h i hi] at hnd
  exact absurd hnd (by simp)

theorem HInv_init (h : Heap) : HInv h h :=
  ⟨le_refl _, fun _ _ => rfl, RegionGE_init h⟩

theorem RegionGE_append {n : Nat} {h : Heap} {nd : HNode}
    (hr : RegionGE n h) (hc : ∀ c ∈ nd.children, n ≤ c) : RegionGE n (h ++ [nd]) := by
  intro i hi nd' hnd' c hcmem
  rcases Nat.lt_trichotomy i h.length with hlt | heq | hgt
  · rw [hget_append_lt h [nd] i hlt] at hnd'
    exact hr i hi nd' hnd' c hcmem
  · subst heq
    rw [hget_append_self h nd] at hnd'
    cases hnd'
    exact hc c hcmem
  · rw [hget_none_of_le (h ++ [nd]) i (by simp; omega)] at hnd'
    exact absurd hnd' (by simp)

mutual

theorem storeVal_spec : ∀ (v : Json) (n : Nat) (h h' : Heap) (r : Nat),
    n ≤ h.length → RegionGE n h → storeVal v h = (h', r) →
    h.length ≤ h'.length ∧ (∀ i, i < h.length → h'.get? i = h.get? i) ∧
    RegionGE n h' ∧ h.length ≤ r ∧ r < h'.length
  | .null, n, h, h', r => by
    intro hn hr hEq
    simp only [storeVal] at hEq
    obtain ⟨rfl, rfl⟩ := Prod.mk.injEq .. ▸ hEq
    refine ⟨by simp, fun i hi => hget_append_lt h _ i hi, RegionGE_append hr (by simp [HNode.children]), le_refl _, by simp⟩
  | .bool b, n, h, h', r => by
    intro hn hr hEq
    simp only [storeVal] at hEq
    obtain ⟨rfl, rfl⟩ := Prod.mk.injEq .. ▸ hEq
    refine ⟨by simp, fun i hi => hget_append_lt h _ i hi, RegionGE_append hr (by simp [HNode.children]), le_refl _, by simp⟩
  | .num q, n, h, h', r => by
    intro hn hr hEq
    simp only [storeVal] at hEq
    obtain ⟨rfl, rfl⟩ := Prod.mk.injEq .. ▸ hEq
    refine ⟨by simp, fun i hi => hget_append_lt h _ i hi, RegionGE_append hr (by simp [HNode.children]), le_refl _, by simp⟩
  | .str s, n, h, h', r => by
    intro hn hr hEq
    simp only [storeVal] at hEq
    obtain ⟨rfl, rfl⟩ := Prod.mk.injEq .. ▸ hEq
    refine ⟨by simp, fun i hi => hget_append_lt h _ i hi, RegionGE_append hr (by simp [HNode.children]), le_refl _, by simp⟩
  | .arr vs, n, h, h', r => by
    intro hn hr hEq
    rcases hsl : storeList vs h with ⟨h1, addrs⟩
    simp only [storeVal, hsl] at hEq
    obtain ⟨rfl, rfl⟩ := Prod.mk.injEq .. ▸ hEq
    obtain ⟨hlen, hpre, hreg, haddrs⟩ := storeList_spec vs n h h1 addrs hn hr hsl
    refine ⟨by simp; omega,
      fun i hi => by rw [hget_append_lt h1 [HNode.harr addrs] i (by omega), hpre i hi],
      RegionGE_append hreg (by
        intro c hc
        simp [HNode.children] at hc
        exact le_trans hn (haddrs c hc).1),
      by omega, by simp⟩
  | .obj fs, n, h, h', r => by
    intro hn hr hEq
    rcases hsf : storeFields fs h with ⟨h1, fas⟩
    simp only [storeVal, hsf] at hEq
    obtain ⟨rfl, rfl⟩ := Prod.mk.injEq .. ▸ hEq
    obtain ⟨hlen, hpre, hreg, haddrs⟩ := storeFields_spec fs n h h1 fas hn hr hsf
    refine ⟨by simp; omega,
      fun i hi => by rw [hget_append_lt h1 [HNode.hobj fas] i (by omega), hpre i hi],
      RegionGE_append hreg (by
        intro c hc
        simp [HNode.children] at hc
        obtain ⟨k, hk⟩ := hc
        exact le_trans hn (haddrs c (by
          simp only [List.mem_map]
          exact ⟨(k, c), hk, rfl⟩)).1),
      by omega, by simp⟩

theorem storeList_spec : ∀ (vs : List Json) (n : Nat) (h h' : Heap) (addrs : List Nat),
    n ≤ h.length → RegionGE n h → storeList vs h = (h', addrs) →
    h.length ≤ h'.length ∧ (∀ i, i < h.length → h'.get? i = h.get? i) ∧
    RegionGE n h' ∧ (∀ a ∈ addrs, h.length ≤ a ∧ a < h'.length)
  | [], n, h, h', addrs => by
    intro hn hr hEq
    simp only [storeList] at hEq
    obtain ⟨rfl, rfl⟩ := Prod.mk.injEq .. ▸ hEq
    exact ⟨le_refl _, fun _ _ => rfl, hr, by simp⟩
  | v :: vs, n, h, h', addrs => by
    intro hn hr hEq
    rcases hsv : storeVal v h with ⟨h1, a⟩
    rcases hsl : storeList vs h1 with ⟨h2, as⟩
    simp only [storeList, hsv, hsl] at hEq
    obtain ⟨rfl, rfl⟩ := Prod.mk.injEq .. ▸ hEq
    obtain ⟨hlen1, hpre1, hreg1, hra, hralt⟩ := storeVal_spec v n h h1 a hn hr hsv
    obtain ⟨hlen2, hpre2, hreg2, has⟩ := storeList_spec vs n h1 h2 as (le_trans hn hlen1) hreg1 hsl
    refine ⟨by omega, fun i hi => by rw [hpre2 i (by omega), hpre1 i hi], hreg2, ?_⟩
    intro x hx
    rcases List.mem_cons.mp hx with rfl | hx'
    · exact ⟨hra, by have := hpre2; omega⟩
    · have := has x hx'
      exact ⟨by omega, this.2⟩

theorem storeFields_spec : ∀ (fs : List (String × Json)) (n : Nat) (h h' : Heap) (fas : List (String × Nat)),
    n ≤ h.length → RegionGE n h → storeFields fs h = (h', fas) →
    h.length ≤ h'.length ∧ (∀ i, i < h.length → h'.get? i = h.get? i) ∧
    RegionGE n h' ∧ (∀ a ∈ fas.map (·.2), h.length ≤ a ∧ a < h'.length)
  | [], n, h, h', fas => by
    intro hn hr hEq
    simp only [storeFields] at hEq
    obtain ⟨rfl, rfl⟩ := Prod.mk.injEq .. ▸ hEq
    exact ⟨le_refl _, fun _ _ => rfl, hr, by simp⟩
  | kv :: fs, n, h, h', fas => by
    intro hn hr hEq
    rcases hsv : storeVal kv.2 h with ⟨h1, a⟩
    rcases hsf : storeFields fs h1 with ⟨h2, fs2⟩
    simp only [storeFields, hsv, hsf] at hEq
    obtain ⟨rfl, rfl⟩ := Prod.mk.injEq .. ▸ hEq
    obtain ⟨hlen1, hpre1, hreg1, hra, hralt⟩ := storeVal_spec kv.2 n h h1 a hn hr hsv
    obtain ⟨hlen2, hpre2, hreg2, has⟩ := storeFields_spec fs n h1 h2 fs2 (le_trans hn hlen1) hreg1 hsf
    refine ⟨by omega, fun i hi => by rw [hpre2 i (by omega), hpre1 i hi], hreg2, ?_⟩
    intro x hx
    simp only [List.map_cons, List.mem_cons] at hx
    rcases hx with rfl | hx'
    · exact ⟨hra, by have := hpre2; omega⟩
    · have := has x hx'
      exact ⟨by omega, this.2⟩

end

theorem setFieldList_val_mem : ∀ (fs : List (String × Nat)) (k : String) (v c : Nat),
    c ∈ (setFieldList fs k v).map (·.2) → c = v ∨ c ∈ fs.map (·.2)
  | [], k, v, c, h => by
    simp only [setFieldList, List.map_cons, List.map_nil, List.mem_singleton] at h
    exact Or.inl h
  | (k', v') :: rest, k, v, c, h => by
    by_cases hk : k' = k
    · rw [setFieldList, if_pos hk] at h
      simp only [List.map_cons, List.mem_cons] at h
      rcases h with rfl | hmem
      · exact Or.inl rfl
      · exact Or.inr (by simp only [List.map_cons, List.mem_cons]; exact Or.inr hmem)
    · rw [setFieldList, if_neg hk] at h
      simp only [List.map_cons, List.mem_cons] at h
      rcases h with rfl | hmem
      · exact Or.inr (by simp)
      · rcases setFieldList_val_mem rest k v c hmem with rfl | hm2
        · exact Or.inl rfl
        · exact Or.inr (by simp only [List.map_cons, List.mem_cons]; exact Or.inr hm2)

theorem setField_id_of_not_obj {h : Heap} {a : Nat} {k : String} {v : Nat}
    (hno : ∀ fs, h.get? a ≠ some (HNode.hobj fs)) : setField h a k v = h := by
  unfold setField
  cases hga : h.get? a with
  | none => rfl
  | some nd =>
    cases nd with
    | hobj fs => exact absurd hga (hno fs)
    | hnull => rfl
    | hbool b => rfl
    | hnum q => rfl
    | hstr s => rfl
    | harr es => rfl

theorem setField_spec {n : Nat} {h : Heap} {a : Nat} (k : String) {v : Nat}
    (hr : RegionGE n h) (ha : n ≤ a) (hv : n ≤ v) :
    (setField h a k v).length = h.length ∧
    (∀ i, i ≠ a → (setField h a k v).get? i = h.get? i) ∧
    RegionGE n (setField h a k v) := by
  cases hga : h.get? a with
  | none =>
    rw [setField_id_of_not_obj (by intro fs hc; rw [hga] at hc; exact absurd hc (by simp))]
    exact ⟨rfl, fun _ _ => rfl, hr⟩
  | some nd =>
    cases nd with
    | hobj fs =>
      have hsf : setField h a k v = h.set a (.hobj (setFieldList fs k v)) := by
        unfold setField; rw [hga]
      rw [hsf]
      refine ⟨by simp, fun i hi => hget_set_ne h i a _ hi, ?_⟩
      intro i hi nd' hnd' c hcmem
      by_cases hia : i = a
      · subst hia
        have halen : i < h.length := by
          by_contra hcon
          rw [hget_none_of_le h i (by omega)] at hga
          exact absurd hga (by simp)
        rw [hget_set_self h i _ halen] at hnd'
        cases hnd'
        simp only [HNode.children] at hcmem
        rcases setFieldList_val_mem fs k v c hcmem with rfl | hold
        · exact hv
        · exact hr i hi _ hga c (by simpa [HNode.children] using hold)
      · rw [hget_set_ne h i a _ hia] at hnd'
        exact hr i hi nd' hnd' c hcmem
    | hnull =>
      rw [setField_id_of_not_obj (by intro fs hc; rw [hga] at hc; exact absurd hc (by simp))]
      exact ⟨rfl, fun _ _ => rfl, hr⟩
    | hbool b =>
      rw [setField_id_of_not_obj (by intro fs hc; rw [hga] at hc; exact absurd hc (by simp))]
      exact ⟨rfl, fun _ _ => rfl, hr⟩
    | hnum q =>
      rw [setField_id_of_not_obj (by intro fs hc; rw [hga] at hc; exact absurd hc (by simp))]
      exact ⟨rfl, fun _ _ => rfl, hr⟩
    | hstr s =>
      rw [setField_id_of_not_obj (by intro fs hc; rw [hga] at hc; exact absurd hc (by simp))]
      exact ⟨rfl, fun _ _ => rfl, hr⟩
    | harr es =>
      rw [setField_id_of_not_obj (by intro fs hc; rw [hga] at hc; exact absurd hc (by simp))]
      exact ⟨rfl, fun _ _ => rfl, hr⟩

theorem getField_ge {n : Nat} {h : Heap} {a b : Nat} {k : String}
    (hr : RegionGE n h) (ha : n ≤ a) (hg : getField h a k = some b) : n ≤ b := by
  unfold getField at hg
  cases hga : h.get? a with
  | none => rw [hga] at hg; exact absurd hg (by simp)
  | some nd =>
    rw [hga] at hg
    cases nd with
    | hobj fs =>
      exact hr a ha _ hga b (by simpa [HNode.children] using lookup_val_mem fs k b hg)
    | hnull => exact absurd hg (by simp)
    | hbool b' => exact absurd hg (by simp)
    | hnum q => exact absurd hg (by simp)
    | hstr s => exact absurd hg (by simp)
    | harr es => exact absurd hg (by simp)

theorem getArr_ge {n : Nat} {h : Heap} {a : Nat} {es : List Nat}
    (hr : RegionGE n h) (ha : n ≤ a) (hg : getArr h a = some es) : ∀ c ∈ es, n ≤ c := by
  unfold getArr at hg
  cases hga : h.get? a with
  | none => rw [hga] at hg; exact absurd hg (by simp)
  | some nd =>
    rw [hga] at hg
    cases nd with
    | harr es' =>
      cases hg
      intro c hc
      exact hr a ha _ hga c (by simpa [HNode.children] using hc)
    | hnull => exact absurd hg (by simp)
    | hbool b' => exact absurd hg (by simp)
    | hnum q => exact absurd hg (by simp)
    | hstr s => exact absurd hg (by simp)
    | hobj fs => exact absurd hg (by simp)

theorem HInv_trans {h₀ h₁ h₂ : Heap} (a : HInv h₀ h₁)
    (hlen : h₁.length ≤ h₂.length)
    (hpre : ∀ i, i < h₁.length → h₂.get? i = h₁.get? i)
    (hreg : RegionGE h₀.length h₂) : HInv h₀ h₂ :=
  ⟨le_trans a.1 hlen,
   fun i hi => by
     have h01 := a.1
     rw [hpre i (by omega), a.2.1 i hi],
   hreg⟩

theorem translateSentenceH_inv {P : Provider} {loads : String → Option Json}
    {mdc : Option Metadata} {fp : String} {idx : Nat} {h₀ h h' : Heap} {sa : Nat}
    (hinv : HInv h₀ h) (hsa : h₀.length ≤ sa)
    (hEq : translateSentenceH P loads mdc fp idx h sa = some h') :
    HInv h₀ h' := by
  unfold translateSentenceH at hEq
  split at hEq
  · exact absurd hEq (by simp)
  split at hEq
  · exact absurd hEq (by simp)
  split at hEq
  · exact absurd hEq (by simp)
  split at hEq
  · exact absurd hEq (by simp)
  rename_i eng heng
  rcases hsv : storeVal eng h with ⟨h1, ea⟩
  rw [hsv] at hEq
  simp only [Option.some.injEq] at hEq
  subst hEq
  obtain ⟨hlen1, hpre1, hreg1, hra, hralt⟩ :=
    storeVal_spec eng h₀.length h h1 ea hinv.1 hinv.2.2 hsv
  obtain ⟨hlen2, hpre2, hreg2⟩ :=
    setField_spec "english_translation" hreg1 hsa (le_trans hinv.1 hra)
  have h0h := hinv.1
  refine ⟨by omega, ?_, hreg2⟩
  intro i hi
  rw [hpre2 i (by omega), hpre1 i (by omega), hinv.2.1 i hi]

theorem translateSentencesH_inv {P : Provider} {loads : String → Option Json}
    {mdc : Option Metadata} {fp : String} {h₀ : Heap} :
    ∀ (sas : List Nat) (i : Nat) (h h' : Heap),
    HInv h₀ h → (∀ sa ∈ sas, h₀.length ≤ sa) →
    translateSentencesH P loads mdc fp i sas h = some h' → HInv h₀ h'
  | [], i, h, h', hinv, _, hEq => by
    simp only [translateSentencesH, Option.some.injEq] at hEq
    exact hEq ▸ hinv
  | sa :: rest, i, h, h', hinv, hsas, hEq => by
    simp only [translateSentencesH] at hEq
    cases hstep : translateSentenceH P loads mdc fp i h sa with
    | none => rw [hstep] at hEq; exact absurd hEq (by simp)
    | some h1 =>
      rw [hstep] at hEq
      exact translateSentencesH_inv rest (i + 1) h1 h'
        (translateSentenceH_inv hinv (hsas sa (by simp)) hstep)
        (fun x hx => hsas x (by simp [hx])) hEq

theorem translateParagraphH_inv {P : Provider} {loads : String → Option Json}
    {mdc : Option Metadata} {h₀ h h' : Heap} {pa : Nat}
    (hinv : HInv h₀ h) (hpa : h₀.length ≤ pa)
    (hEq : translateParagraphH P loads mdc h pa = some h') : HInv h₀ h' := by
  unfold translateParagraphH at hEq
  split at hEq
  · exact absurd hEq (by simp)
  rename_i sarr hsarr
  split at hEq
  · exact absurd hEq (by simp)
  rename_i sas hsas
  split at hEq
  · exact absurd hEq (by simp)
  rename_i texts htexts
  exact translateSentencesH_inv sas 0 h h' hinv
    (getArr_ge hinv.2.2 (getField_ge hinv.2.2 hpa hsarr) hsas) hEq

theorem translateParagraphsH_inv {P : Provider} {loads : String → Option Json}
    {mdc : Option Metadata} {h₀ : Heap} :
    ∀ (pas : List Nat) (h h' : Heap),
    HInv h₀ h → (∀ pa ∈ pas, h₀.length ≤ pa) →
    translateParagraphsH P loads mdc pas h = some h' → HInv h₀ h'
  | [], h, h', hinv, _, hEq => by
    simp only [translateParagraphsH, Option.some.injEq] at hEq
    exact hEq ▸ hinv
  | pa :: rest, h, h', hinv, hpas, hEq => by
    simp only [translateParagraphsH] at hEq
    cases hstep : translateParagraphH P loads mdc h pa with
    | none => rw [hstep] at hEq; exact absurd hEq (by simp)
    | some h1 =>
      rw [hstep] at hEq
      exact translateParagraphsH_inv rest h1 h'
        (translateParagraphH_inv hinv (hpas pa (by simp)) hstep)
        (fun x hx => hpas x (by simp [hx])) hEq

theorem reachAddrs_ge {n : Nat} : ∀ (fuel : Nat) (h : Heap) (a : Nat),
    RegionGE n h → n ≤ a → ∀ x ∈ reachAddrs fuel h a, n ≤ x
  | 0, h, a, _, _, x, hx => by simp [reachAddrs] at hx
  | fuel + 1, h, a, hreg, ha, x, hx => by
    simp only [reachAddrs, List.mem_cons] at hx
    rcases hx with rfl | hx
    · exact ha
    · cases hga : h.get? a with
      | none => rw [hga] at hx; exact absurd hx (by simp)
      | some nd =>
        rw [hga] at hx
        obtain ⟨c, hc, hxc⟩ := List.mem_flatMap.mp hx
        exact reachAddrs_ge fuel h c hreg (hreg a ha nd hga c hc) x hxc

/-- The sentence stored at paragraph `i`, position `j` of a page. -/
def sentenceAt (pd : PageDataV) (i j : Nat) : Option SentenceV :=
  (pd.paragraphs.get? i).bind (fun p => p.sentences.get? j)

theorem mapExcept_ok {α β} {f : α → Except String β} :
    ∀ (l : List α) (l' : List β), mapExcept f l = .ok l' →
    l'.length = l.length ∧
    ∀ j a, l.get? j = some a → ∃ b, l'.get? j = some b ∧ f a = .ok b
  | [], l', h => by
    simp only [mapExcept, Except.ok.injEq] at h
    subst h
    exact ⟨rfl, fun j a ha => by simp at ha⟩
  | a :: as, l', h => by
    simp only [mapExcept] at h
    cases hfa : f a with
    | error e => rw [hfa] at h; exact absurd h (by simp)
    | ok b =>
      rw [hfa] at h
      cases hrest : mapExcept f as with
      | error e => rw [hrest] at h; exact absurd h (by simp)
      | ok bs =>
        rw [hrest] at h
        simp only [Except.ok.injEq] at h
        subst h
        obtain ⟨hlen, hget⟩ := mapExcept_ok as bs hrest
        refine ⟨by simp [hlen], ?_⟩
        intro j x hx
        cases j with
        | zero =>
          simp only [List.get?] at hx ⊢
          cases hx
          exact ⟨b, rfl, hfa⟩
        | succ j' =>
          simp only [List.get?] at hx ⊢
          exact hget j' x hx

theorem mapWithIdxExcept_ok {α β} {f : Nat → α → Except String β} :
    ∀ (l : List α) (i : Nat) (l' : List β), mapWithIdxExcept f i l = .ok l' →
    l'.length = l.length ∧
    ∀ j a, l.get? j = some a → ∃ b, l'.get? j = some b ∧ f (i + j) a = .ok b
  | [], i, l', h => by
    simp only [mapWithIdxExcept, Except.ok.injEq] at h
    subst h
    exact ⟨rfl, fun j a ha => by simp at ha⟩
  | a :: as, i, l', h => by
    simp only [mapWithIdxExcept] at h
    cases hfa : f i a with
    | error e => rw [hfa] at h; exact absurd h (by simp)
    | ok b =>
      rw [hfa] at h
      cases hrest : mapWithIdxExcept f (i + 1) as with
      | error e => rw [hrest] at h; exact absurd h (by simp)
      | ok bs =>
        rw [hrest] at h
        simp only [Except.ok.injEq] at h
        subst h
        obtain ⟨hlen, hget⟩ := mapWithIdxExcept_ok as (i + 1) bs hrest
        refine ⟨by simp [hlen], ?_⟩
        intro j x hx
        cases j with
        | zero =>
          simp only [List.get?] at hx ⊢
          cases hx
          exact ⟨b, rfl, by simpa using hfa⟩
        | succ j' =>
          simp only [List.get?] at hx ⊢
          obtain ⟨b', hb', hfb'⟩ := hget j' x hx
          exact ⟨b', hb', by
            have : i + 1 + j' = i + (j' + 1) := by omega
            rw [← this]; exact hfb'⟩

theorem translateSentenceV_ok {P : Provider} {loads : String → Option Json}
    {mdc : Option Metadata} {fp : String} {idx : Nat} {s s' : SentenceV}
    (h : translateSentenceV P loads mdc fp idx s = .ok s') :
    s'.text = s.text ∧ s'.type = s.type ∧
    ∃ eng, s'.english_translation = some eng ∧
      translateSentenceCore P loads mdc fp idx s.text (s.type.getD "narration") = .ok eng := by
  unfold translateSentenceV at h
  cases hc : translateSentenceCore P loads mdc fp idx s.text (s.type.getD "narration") with
  | error e => rw [hc] at h; exact absurd h (by simp)
  | ok eng =>
    rw [hc] at h
    simp only [Except.ok.injEq] at h
    subst h
    exact ⟨rfl, rfl, eng, rfl, rfl⟩

theorem translateParagraphV_ok {P : Provider} {loads : String → Option Json}
    {mdc : Option Metadata} {p p' : ParagraphV}
    (h : translateParagraphV P loads mdc p = .ok p') :
    p'.sentences.length = p.sentences.length ∧
    ∀ j s, p.sentences.get? j = some s →
      ∃ s', p'.sentences.get? j = some s' ∧
        translateSentenceV P loads mdc (full_paragraph_context p) j s = .ok s' := by
  unfold translateParagraphV at h
  cases hm : mapWithIdxExcept
      (translateSentenceV P loads mdc (full_paragraph_context p)) 0 p.sentences with
  | error e => rw [hm] at h; exact absurd h (by simp)
  | ok ss =>
    rw [hm] at h
    simp only [Except.ok.injEq] at h
    subst h
    obtain ⟨hlen, hget⟩ := mapWithIdxExcept_ok p.sentences 0 ss hm
    refine ⟨hlen, ?_⟩
    intro j s hs
    obtain ⟨s', hs', hok⟩ := hget j s hs
    exact ⟨s', hs', by simpa using hok⟩

theorem translate_book_data_ok {P : Provider} {loads : String → Option Json}
    {book : BookData} {r : TranslateResponse}
    (h : translate_book_data P loads book = .ok r) :
    r.provider = P.name ∧
    r.metadata = book.metadata.map (translated_metadata P) ∧
    r.page_data.paragraphs.length = book.page_data.paragraphs.length ∧
    ∀ i p, book.page_data.paragraphs.get? i = some p →
      ∃ p', r.page_data.paragraphs.get? i = some p' ∧
        translateParagraphV P loads book.metadata p = .ok p' := by
  unfold translate_book_data at h
  cases hm : mapExcept (translateParagraphV P loads book.metadata) book.page_data.paragraphs with
  | error e => rw [hm] at h; exact absurd h (by simp)
  | ok ps =>
    rw [hm] at h
    simp only [Except.ok.injEq] at h
    subst h
    obtain ⟨hlen, hget⟩ := mapExcept_ok _ ps hm
    exact ⟨rfl, rfl, hlen, hget⟩

/-- A parser/provider contract for the amended non-emptiness claim: whenever
a provider response parses to a JSON object that carries the key
`english_sentences`, the value there is a non-empty array.  (Unparseable
responses, parsed non-objects and objects without the key are all allowed
and handled by the code's fallbacks.) -/
def GoodLoads (loads : String → Option Json) : Prop :=
  ∀ s fields w, loads s = some (Json.obj fields) →
    fields.lookup "english_sentences" = some w → ∃ l, w = Json.arr l ∧ l ≠ []

theorem translate_stage_direction_nonempty {P : Provider} {loads : String → Option Json}
    {text : String} {md : Option Metadata} {eng : Json}
    (hg : GoodLoads loads)
    (h : translate_stage_direction_sentences P loads text md = .ok eng) :
    ∃ l, eng = Json.arr l ∧ l ≠ [] := by
  unfold translate_stage_direction_sentences at h
  split at h
  · simp only [Except.ok.injEq] at h
    exact ⟨[Json.str text], h.symm, by simp⟩
  · rename_i fields hl
    simp only [Except.ok.injEq] at h
    cases hk : fields.lookup "english_sentences" with
    | none =>
      rw [hk] at h
      simp only [Option.getD] at h
      exact ⟨[Json.str text], h.symm, by simp⟩
    | some w =>
      rw [hk] at h
      simp only [Option.getD] at h
      obtain ⟨l, rfl, hne⟩ := hg _ _ _ hl hk
      exact ⟨l, h.symm, hne⟩
  · exact absurd h (by simp)

theorem translate_and_split_nonempty (P : Provider) {loads : String → Option Json}
    (g pc : String) (idx : Nat) (md : Option Metadata) (st : String)
    (hg : GoodLoads loads) :
    ∃ l, translate_and_split_with_context P loads g pc idx md st = Json.arr l ∧ l ≠ [] := by
  unfold translate_and_split_with_context
  split
  · rename_i fields hl
    split
    · rename_i w hk
      obtain ⟨l, rfl, hne⟩ := hg _ _ _ hl hk
      exact ⟨l, rfl, hne⟩
    · exact ⟨_, rfl, by simp⟩
  · exact ⟨_, rfl, by simp⟩
  · exact ⟨_, rfl, by simp⟩

theorem translateSentenceCore_nonempty {P : Provider} {loads : String → Option Json}
    {mdc : Option Metadata} {fp : String} {idx : Nat} {txt st : String} {eng : Json}
    (hg : GoodLoads loads)
    (h : translateSentenceCore P loads mdc fp idx txt st = .ok eng) :
    ∃ l, eng = Json.arr l ∧ l ≠ [] := by
  unfold translateSentenceCore at h
  by_cases h1 : st = "stage_direction"
  · rw [if_pos h1] at h
    exact translate_stage_direction_nonempty hg h
  · rw [if_neg h1] at h
    by_cases h2 : st = "speaker_name"
    · rw [if_pos h2] at h
      simp only [Except.ok.injEq] at h
      exact ⟨(translate_speaker_name txt mdc).map Json.str, h.symm, by
        simp [translate_speaker_name]⟩
    · rw [if_neg h2] at h
      simp only [Except.ok.injEq] at h
      obtain ⟨l, hl, hne⟩ := translate_and_split_nonempty P txt fp idx mdc st hg
      exact ⟨l, h ▸ hl, hne⟩

/-- The "first candidate the parser accepts" relation, stated positionally:
`c` sits at some index of the candidate list, parses, and every earlier
candidate fails to parse. -/
def FirstValid (loads : String → Option Json) (l : List String) (c : String) : Prop :=
  ∃ k, l.get? k = some c ∧ (loads c).isSome ∧
    ∀ k' c', k' < k → l.get? k' = some c' → loads c' = none

theorem find?_of_firstValid {loads : String → Option Json} :
    ∀ (l : List String) (c : String), FirstValid loads l c →
    l.find? (fun m => (loads m).isSome) = some c
  | [], c, ⟨k, hk, _, _⟩ => by simp at hk
  | a :: as, c, ⟨k, hk, hv, hmin⟩ => by
    cases k with
    | zero =>
      simp only [List.get?] at hk
      cases hk
      simp [List.find?, hv]
    | succ k' =>
      have ha : loads a = none := hmin 0 a (by omega) rfl
      have : (loads a).isSome = false := by simp [ha]
      simp only [List.find?, this]
      exact find?_of_firstValid as c ⟨k', hk, hv, fun k'' c'' hlt hg =>
        hmin (k'' + 1) c'' (by omega) hg⟩

theorem find?_none_of_all_none {loads : String → Option Json} {l : List String}
    (h : ∀ c ∈ l, loads c = none) : l.find? (fun m => (loads m).isSome) = none := by
  induction l with
  | nil => rfl
  | cons a as ih =>
    have ha : (loads a).isSome = false := by simp [h a (by simp)]
    simp only [List.find?, ha]
    exact ih (fun c hc => h c (by simp [hc]))

/-- Modelled from the spec: the claim's reading of the second strategy —
"a brace-delimited substring containing the literal key `english_sentences`"
— with no restriction on nested braces: all substrings that start with `{`,
end with `}` and contain the quoted key, enumerated by start position and
then end position. -/
def spec_braceCandidates (text : String) : List String :=
  (List.range text.data.length).flatMap (fun i =>
    (List.range text.data.length).filterMap (fun j =>
      let sub := (text.data.drop i).take (j + 1 - i)
      if i ≤ j && (text.data.get? i == some '{') && (text.data.get? j == some '}')
         && containsLit englishSentencesLit sub
      then some (⟨sub⟩ : String) else none))

/-- Modelled from the spec: the response normalizer as the claim describes
it, with the claim's strategy-2 candidate set (`spec_braceCandidates`) in
place of the code's brace-free regex candidates. -/
def extract_json_spec (loads : String → Option Json) (text : String) : String :=
  match (fencedCandidates text).find? (fun m => (loads m).isSome) with
  | some m => m
  | none =>
    match (spec_braceCandidates text).find? (fun m => (loads m).isSome) with
    | some m => m
    | none => pyStrip text

/-- A provider stub whose every response is the fixed string
`stub response` (used by concrete witnesses). -/
def stubProvider : Provider :=
  { simpleTranslate := fun _ _ => "stub response",
    jsonTranslate := fun _ _ _ => "stub response",
    name := "stub" }

/-- A parser stub on which every parse fails (`json.loads` raising
`JSONDecodeError` on every input — e.g. all responses are prose). -/
def noneLoads : String → Option Json := fun _ => none

theorem goodLoads_noneLoads : GoodLoads noneLoads := by
  intro s fields w h
  simp [noneLoads] at h

/-- A one-sentence, one-paragraph book (no metadata, default sentence type). -/
def sampleBook : BookData :=
  { metadata := none,
    page_data := { paragraphs := [{ sentences :=
      [{ text := "Hallo Welt.", type := none, english_translation := none }] }] } }

/-- The translation of `sampleBook` under `stubProvider`/`noneLoads`: the
parse fails, so the fallback attaches the stripped raw response. -/
def sampleResult : TranslateResponse :=
  { page_data := { paragraphs := [{ sentences :=
      [{ text := "Hallo Welt.", type := none,
         english_translation := some (Json.arr [Json.str "stub response"]) }] }] },
    provider := "stub",
    metadata := none }

theorem hget_lt_of_some {α} : ∀ (l : List α) (i : Nat) (a : α), l.get? i = some a → i < l.length
  | [], i, a, h => by simp at h
  | _ :: _, 0, _, _ => by simp
  | _ :: as, i + 1, a, h => by
    simp only [List.get?] at h
    have := hget_lt_of_some as i a h
    simp
    omega

theorem hget_some_of_lt {α} : ∀ (l : List α) (i : Nat), i < l.length → ∃ a, l.get? i = some a
  | [], i, h => by simp at h
  | a :: _, 0, _ => ⟨a, rfl⟩
  | _ :: as, i + 1, h => hget_some_of_lt as i (by simp at h; omega)

/-- C1: for every input with at least one paragraph and at least one
sentence, a completed `translate` call returns `page_data` with exactly the
same paragraphs in the same order (same count), each with exactly the same
sentences in the same order (same count per paragraph), each sentence's
source `text` (and `type`) unchanged and an `english_translation` attached;
no sentence is reordered, merged across paragraphs, or skipped. -/
theorem claim_C1 (P : Provider) (loads : String → Option Json) (book : BookData)
    (r : TranslateResponse)
    (hpar : book.page_data.paragraphs ≠ [])
    (hsen : ∃ p ∈ book.page_data.paragraphs, p.sentences ≠ [])
    (hok : LLMService.translate P loads book = .ok r) :
    r.page_data.paragraphs.length = book.page_data.paragraphs.length ∧
    (∀ i p, book.page_data.paragraphs.get? i = some p →
      ∃ p', r.page_data.paragraphs.get? i = some p' ∧
        p'.sentences.length = p.sentences.length) ∧
    (∀ i j s, sentenceAt book.page_data i j = some s →
      ∃ s', sentenceAt r.page_data i j = some s' ∧
        s'.text = s.text ∧ s'.type = s.type ∧ s'.english_translation.isSome) := by
  have hok' : translate_book_data P loads book = .ok r := hok
  obtain ⟨hprov, hmd, hlen, hpars⟩ := translate_book_data_ok hok'
  refine ⟨hlen, ?_, ?_⟩
  · intro i p hp
    obtain ⟨p', hp', hpok⟩ := hpars i p hp
    exact ⟨p', hp', (translateParagraphV_ok hpok).1⟩
  · intro i j s hs
    unfold sentenceAt at hs ⊢
    cases hpi : book.page_data.paragraphs.get? i with
    | none => rw [hpi] at hs; exact absurd hs (by simp)
    | some p =>
      rw [hpi] at hs
      simp only [Option.some_bind] at hs
      obtain ⟨p', hp', hpok⟩ := hpars i p hpi
      obtain ⟨hplen, hpg⟩ := translateParagraphV_ok hpok
      obtain ⟨s', hs', hsok⟩ := hpg j s hs
      obtain ⟨ht, hty, eng, he, _⟩ := translateSentenceV_ok hsok
      rw [hp']
      exact ⟨s', by simp only [Option.some_bind]; exact hs', ht, hty, by simp [he]⟩

theorem claim_C1_witness :
    sampleBook.page_data.paragraphs ≠ [] ∧
    (∃ p ∈ sampleBook.page_data.paragraphs, p.sentences ≠ []) ∧
    sampleResult.page_data.paragraphs.length = sampleBook.page_data.paragraphs.length :=
  ⟨by simp [sampleBook],
   ⟨{ sentences := [{ text := "Hallo Welt.", type := none, english_translation := none }] },
     by simp [sampleBook], by simp⟩,
   (claim_C1 stubProvider noneLoads sampleBook sampleResult (by simp [sampleBook])
     ⟨{ sentences := [{ text := "Hallo Welt.", type := none, english_translation := none }] },
       by simp [sampleBook], by simp⟩ rfl).1⟩

/-- A provider stub that answers every structured-translation request with
the well-formed JSON text `{"english_sentences": []}`. -/
def emptyListProvider : Provider :=
  { simpleTranslate := fun _ _ => "stub response",
    jsonTranslate := fun _ _ _ => "\x7b\"english_sentences\": []\x7d",
    name := "stub" }

/-- A parser stub that agrees with Python's `json.loads` on the string
`{"english_sentences": []}` (an object holding an empty array) and fails on
everything else. -/
def emptyListLoads : String → Option Json := fun s =>
  if s = "\x7b\"english_sentences\": []\x7d"
  then some (Json.obj [("english_sentences", Json.arr [])]) else none

/-- C2 counterexample: the claim says the attached `english_translation`
list is non-empty for every provider response including any well-formed
JSON; but when the provider returns the well-formed `{"english_sentences":
[]}`, `data["english_sentences"]` is returned verbatim and the attached
list is the empty list. -/
theorem claim_C2_counterexample :
    (LLMService.translate emptyListProvider emptyListLoads sampleBook).toOption.bind
      (fun r => (sentenceAt r.page_data 0 0).bind (·.english_translation)) =
    some (Json.arr []) := by rfl

/-- C2 (amended): after a completed translation pass, every sentence of
every type carries a non-empty `english_translation` list, for every
provider response that is unparseable, parses to a non-object, or parses
to an object whose `english_sentences` member (if present) is a non-empty
array (`GoodLoads`); a well-formed response carrying an empty
`english_sentences` array is attached verbatim and escapes the guarantee. -/
theorem claim_C2 (P : Provider) (loads : String → Option Json) (book : BookData)
    (r : TranslateResponse)
    (hg : GoodLoads loads)
    (hok : LLMService.translate P loads book = .ok r) :
    ∀ i j s', sentenceAt r.page_data i j = some s' →
      ∃ l, s'.english_translation = some (Json.arr l) ∧ l ≠ [] := by
  have hok' : translate_book_data P loads book = .ok r := hok
  obtain ⟨hprov, hmd, hlen, hpars⟩ := translate_book_data_ok hok'
  intro i j s' hs'
  unfold sentenceAt at hs'
  cases hpi : r.page_data.paragraphs.get? i with
  | none => rw [hpi] at hs'; exact absurd hs' (by simp)
  | some p' =>
    rw [hpi] at hs'
    simp only [Option.some_bind] at hs'
    have hilt : i < book.page_data.paragraphs.length := by
      have := hget_lt_of_some _ _ _ hpi
      omega
    obtain ⟨p, hp⟩ := hget_some_of_lt _ i hilt
    obtain ⟨p'', hp'', hpok⟩ := hpars i p hp
    rw [hpi] at hp''
    cases hp''
    obtain ⟨hplen, hpg⟩ := translateParagraphV_ok hpok
    have hjlt : j < p.sentences.length := by
      have := hget_lt_of_some _ _ _ hs'
      omega
    obtain ⟨s, hsj⟩ := hget_some_of_lt _ j hjlt
    obtain ⟨s'', hs'', hsok⟩ := hpg j s hsj
    rw [hs'] at hs''
    cases hs''
    obtain ⟨ht, hty, eng, he, hcore⟩ := translateSentenceV_ok hsok
    obtain ⟨l, rfl, hne⟩ := translateSentenceCore_nonempty hg hcore
    exact ⟨l, he, hne⟩

theorem claim_C2_witness :
    GoodLoads noneLoads ∧
    ∃ l, ({ text := "Hallo Welt.", type := none,
            english_translation := some (Json.arr [Json.str "stub response"]) } : SentenceV).english_translation
          = some (Json.arr l) ∧ l ≠ [] :=
  ⟨goodLoads_noneLoads,
   claim_C2 stubProvider noneLoads sampleBook sampleResult goodLoads_noneLoads rfl 0 0 _ rfl⟩

theorem speaker_lookup_eq (t : String) :
    (common_translations.lookup (pyUpper t)).getD t =
    (if pyUpper t = "CHOR" then "CHORUS"
     else if pyUpper t = "ALLE" then "ALL"
     else if pyUpper t = "STIMME" then "VOICE"
     else if pyUpper t = "SPRECHER" then "NARRATOR"
     else t) := by
  by_cases h1 : pyUpper t = "CHOR"
  · simp [common_translations, List.lookup, h1]
  · by_cases h2 : pyUpper t = "ALLE"
    · simp [common_translations, List.lookup, h1, h2]
    · by_cases h3 : pyUpper t = "STIMME"
      · simp [common_translations, List.lookup, h1, h2, h3]
      · by_cases h4 : pyUpper t = "SPRECHER"
        · simp [common_translations, List.lookup, h1, h2, h3, h4]
        · have e1 : (pyUpper t == "CHOR") = false := beq_eq_false_iff_ne.mpr h1
          have e2 : (pyUpper t == "ALLE") = false := beq_eq_false_iff_ne.mpr h2
          have e3 : (pyUpper t == "STIMME") = false := beq_eq_false_iff_ne.mpr h3
          have e4 : (pyUpper t == "SPRECHER") = false := beq_eq_false_iff_ne.mpr h4
          simp [common_translations, List.lookup, e1, e2, e3, e4, h1, h2, h3, h4]

theorem translateSentenceCore_speaker (P : Provider) (loads : String → Option Json)
    (mdc : Option Metadata) (fp : String) (idx : Nat) (txt : String) :
    translateSentenceCore P loads mdc fp idx txt "speaker_name" =
    .ok (Json.arr ((translate_speaker_name txt mdc).map Json.str)) := by
  unfold translateSentenceCore
  simp

/-- C3: for every sentence of type `speaker_name` in a completed translation
pass, the attached translation is a pure type-table lookup — independent of
the provider and of the parser, since the code makes no provider call for
this type: uppercased CHOR/ALLE/STIMME/SPRECHER (any letter case) map to the
singletons CHORUS/ALL/VOICE/NARRATOR, and any other text passes through
unchanged as a singleton. -/
theorem claim_C3 (P : Provider) (loads : String → Option Json) (book : BookData)
    (r : TranslateResponse) (i j : Nat) (s : SentenceV)
    (hok : LLMService.translate P loads book = .ok r)
    (hs : sentenceAt book.page_data i j = some s)
    (hty : s.type = some "speaker_name") :
    ∃ s', sentenceAt r.page_data i j = some s' ∧ s'.text = s.text ∧
      s'.english_translation = some (Json.arr [Json.str (
        if pyUpper s.text = "CHOR" then "CHORUS"
        else if pyUpper s.text = "ALLE" then "ALL"
        else if pyUpper s.text = "STIMME" then "VOICE"
        else if pyUpper s.text = "SPRECHER" then "NARRATOR"
        else s.text)]) := by
  have hok' : translate_book_data P loads book = .ok r := hok
  obtain ⟨hprov, hmd, hlen, hpars⟩ := translate_book_data_ok hok'
  unfold sentenceAt at hs ⊢
  cases hpi : book.page_data.paragraphs.get? i with
  | none => rw [hpi] at hs; exact absurd hs (by simp)
  | some p =>
    rw [hpi] at hs
    simp only [Option.some_bind] at hs
    obtain ⟨p', hp', hpok⟩ := hpars i p hpi
    obtain ⟨hplen, hpg⟩ := translateParagraphV_ok hpok
    obtain ⟨s', hs', hsok⟩ := hpg j s hs
    obtain ⟨ht, hty', eng, he, hcore⟩ := translateSentenceV_ok hsok
    refine ⟨s', by rw [hp']; simp only [Option.some_bind]; exact hs', ht, ?_⟩
    rw [hty] at hcore
    simp only [Option.getD_some] at hcore
    rw [translateSentenceCore_speaker] at hcore
    simp only [Except.ok.injEq] at hcore
    rw [he, ← hcore]
    simp only [translate_speaker_name, List.map]
    rw [speaker_lookup_eq]

/-- A one-sentence book whose sentence is the speaker name `Chor`. -/
def speakerBook : BookData :=
  { metadata := none,
    page_data := { paragraphs := [{ sentences :=
      [{ text := "Chor", type := some "speaker_name", english_translation := none }] }] } }

theorem claim_C3_witness :
    sentenceAt speakerBook.page_data 0 0 =
      some { text := "Chor", type := some "speaker_name", english_translation := none } ∧
    ∃ s', (LLMService.translate stubProvider noneLoads speakerBook).toOption.bind
            (fun r => sentenceAt r.page_data 0 0) = some s' ∧
          s'.english_translation = some (Json.arr [Json.str "CHORUS"]) := by
  refine ⟨rfl, ?_⟩
  obtain ⟨s', hs', ht, he⟩ := claim_C3 stubProvider noneLoads speakerBook
    ((LLMService.translate stubProvider noneLoads speakerBook).toOption.get (by decide))
    0 0 { text := "Chor", type := some "speaker_name", english_translation := none }
    (by rfl) rfl rfl
  refine ⟨s', ?_, ?_⟩
  · rw [show (LLMService.translate stubProvider noneLoads speakerBook).toOption =
      some ((LLMService.translate stubProvider noneLoads speakerBook).toOption.get (by decide))
      from rfl]
    simp only [Option.some_bind]
    exact hs'
  · rw [he]
    rfl

/-- C4: whenever JSON parsing of the provider response fails, the
stage-direction translator answers exactly the singleton holding the
original source text, and the context translator (dialogue, narration and
every other type) answers exactly the singleton holding the
whitespace-stripped raw response. -/
theorem claim_C4 (P : Provider) (loads : String → Option Json) (text : String)
    (md : Option Metadata) (g pc : String) (idx : Nat) (st : String)
    (h1 : loads (stage_direction_response P text md) = none)
    (h2 : loads (context_response P g pc idx md st) = none) :
    translate_stage_direction_sentences P loads text md = .ok (Json.arr [Json.str text]) ∧
    translate_and_split_with_context P loads g pc idx md st =
      Json.arr [Json.str (pyStrip (context_response P g pc idx md st))] := by
  constructor
  · unfold translate_stage_direction_sentences
    rw [h1]
  · unfold translate_and_split_with_context
    rw [h2]

theorem claim_C4_witness :
    noneLoads (stage_direction_response stubProvider "Er tritt auf." none) = none ∧
    noneLoads (context_response stubProvider "Hallo." "Hallo." 0 none "dialogue") = none ∧
    translate_stage_direction_sentences stubProvider noneLoads "Er tritt auf." none =
      .ok (Json.arr [Json.str "Er tritt auf."]) ∧
    translate_and_split_with_context stubProvider noneLoads "Hallo." "Hallo." 0 none "dialogue" =
      Json.arr [Json.str "stub response"] := by
  have h := claim_C4 stubProvider noneLoads "Er tritt auf." none "Hallo." "Hallo." 0 "dialogue" rfl rfl
  exact ⟨rfl, rfl, h.1, by rw [h.2]; rfl⟩

/-- The object substring of the C5 counterexample text: it parses as JSON
and contains the `english_sentences` key, but holds a nested `{}`. -/
def nestedObjText : String := "\x7b\"english_sentences\": [\"ok\"], \"z\": \x7b\x7d\x7d"

/-- The C5 counterexample response: prose around a JSON object with a
nested brace pair. -/
def nestedRespText : String := "x \x7b\"english_sentences\": [\"ok\"], \"z\": \x7b\x7d\x7d y"

/-- A parser stub agreeing with Python's `json.loads` on `nestedObjText`
(which parses) and on every substring of `nestedRespText` the two
extractors probe (none of the others parses). -/
def nestedLoads : String → Option Json := fun s =>
  if s = nestedObjText
  then some (Json.obj [("english_sentences", Json.arr [Json.str "ok"]), ("z", Json.obj [])])
  else none

/-- C5 counterexample: the claim's second strategy accepts any
brace-delimited substring containing the key that parses as JSON, so on
`nestedRespText` it returns the object `nestedObjText`; the code's regex
`\{[^{}]*"english_sentences"[^{}]*\}` rejects nested braces, finds no
candidate, and falls through to returning the trimmed raw text. -/
theorem claim_C5_counterexample :
    extract_json_from_response nestedLoads nestedRespText = nestedRespText ∧
    extract_json_spec nestedLoads nestedRespText = nestedObjText ∧
    nestedRespText ≠ nestedObjText := by
  refine ⟨by rfl, by rfl, by decide⟩

/-- C5 (amended): the normalizer applies its strategies in a fixed order and
the first success wins — but the candidate sets are those of the code's two
regexes: strategy 1 accepts the first fenced `json` block whose
brace-delimited body parses, strategy 2 (only reached when every fenced
candidate fails) accepts the first brace-delimited, *brace-free* substring
containing the quoted key `"english_sentences"` that parses, and when both
strategies fail the whitespace-trimmed raw text is returned verbatim. -/
theorem claim_C5 (loads : String → Option Json) (text : String) :
    (∀ c, FirstValid loads (fencedCandidates text) c →
      extract_json_from_response loads text = c) ∧
    ((∀ c ∈ fencedCandidates text, loads c = none) →
      ∀ c, FirstValid loads (braceCandidates text) c →
        extract_json_from_response loads text = c) ∧
    ((∀ c ∈ fencedCandidates text, loads c = none) →
      (∀ c ∈ braceCandidates text, loads c = none) →
      extract_json_from_response loads text = pyStrip text) := by
  unfold extract_json_from_response
  refine ⟨?_, ?_, ?_⟩
  · intro c hfv
    rw [find?_of_firstValid _ c hfv]
  · intro hall c hfv
    rw [find?_none_of_all_none hall, find?_of_firstValid _ c hfv]
  · intro hall1 hall2
    rw [find?_none_of_all_none hall1, find?_none_of_all_none hall2]

/-- The fenced response of the C5 witness. -/
def fencedRespText : String := "```json \x7b\"english_sentences\": [\"hi\"]\x7d ```"

/-- The object inside the fenced block of `fencedRespText`. -/
def fencedObjText : String := "\x7b\"english_sentences\": [\"hi\"]\x7d"

/-- A parser stub agreeing with `json.loads` on `fencedObjText`. -/
def fencedLoads : String → Option Json := fun s =>
  if s = fencedObjText
  then some (Json.obj [("english_sentences", Json.arr [Json.str "hi"])]) else none

theorem claim_C5_witness :
    FirstValid fencedLoads (fencedCandidates fencedRespText) fencedObjText ∧
    extract_json_from_response fencedLoads fencedRespText = fencedObjText := by
  have hfv : FirstValid fencedLoads (fencedCandidates fencedRespText) fencedObjText :=
    ⟨0, by rfl, by rfl, fun k' c' hk' => absurd hk' (by omega)⟩
  exact ⟨hfv, (claim_C5 fencedLoads fencedRespText).1 fencedObjText hfv⟩

/-- C6: a completed `translate` call never mutates the caller's input — in
the heap model, every address that existed before the call still holds
exactly the node it held before, so the input book (its `page_data`,
`metadata`, paragraphs and sentences) is structurally unchanged — and the
returned `page_data` is a fresh deep copy: its root is a new address and
every address reachable from it is new, so it shares no mutable
substructure with the input. -/
theorem claim_C6 (P : Provider) (loads : String → Option Json) (fuel : Nat)
    (h : Heap) (bookA : Nat) (h' : Heap) (out : Nat)
    (hEq : translate_book_data_heap P loads fuel h bookA = some (h', out)) :
    (∀ i, i < h.length → h'.get? i = h.get? i) ∧
    h.length ≤ out ∧
    (∀ f x, x ∈ reachAddrs f h' out → h.length ≤ x) := by
  unfold translate_book_data_heap at hEq
  split at hEq
  · exact absurd hEq (by simp)
  rename_i pdA hpdA
  split at hEq
  · exact absurd hEq (by simp)
  rename_i pdV hpdV
  split at hEq
  rename_i h1 copyA hsv
  split at hEq
  · exact absurd hEq (by simp)
  rename_i mdc hmdc
  split at hEq
  · exact absurd hEq (by simp)
  rename_i parrA hparrA
  split at hEq
  · exact absurd hEq (by simp)
  rename_i pas hpas
  split at hEq
  · exact absurd hEq (by simp)
  rename_i h2 hloop
  simp only [Option.some.injEq, Prod.mk.injEq] at hEq
  obtain ⟨rfl, rfl⟩ := hEq
  obtain ⟨hlen1, hpre1, hreg1, hcopyA, hcopyAlt⟩ :=
    storeVal_spec pdV h.length h h1 copyA (le_refl _) (RegionGE_init h) hsv
  have hinv1 : HInv h h1 := ⟨hlen1, hpre1, hreg1⟩
  have hparr_ge : h.length ≤ parrA := getField_ge hreg1 hcopyA hparrA
  have hpas_ge : ∀ pa ∈ pas, h.length ≤ pa := getArr_ge hreg1 hparr_ge hpas
  have hinv2 : HInv h h2 := translateParagraphsH_inv pas h1 h2 hinv1 hpas_ge hloop
  exact ⟨hinv2.2.1, hcopyA, fun f x hx => reachAddrs_ge f h2 copyA hinv2.2.2 hcopyA x hx⟩

/-- A seven-cell heap holding one book: a sentence dict (text only), its
paragraph, the page, and the enclosing book object. -/
def sampleHeap : Heap :=
  [ .hstr "Hallo Welt.",
    .hobj [("text", 0)],
    .harr [1],
    .hobj [("sentences", 2)],
    .harr [3],
    .hobj [("paragraphs", 4)],
    .hobj [("page_data", 5)] ]

theorem claim_C6_witness :
    ∃ p, translate_book_data_heap stubProvider noneLoads 10 sampleHeap 6 = some p ∧
      sampleHeap.length ≤ p.2 ∧ (p.1.get? 1 = sampleHeap.get? 1) := by
  have hS : (translate_book_data_heap stubProvider noneLoads 10 sampleHeap 6).isSome = true := by
    rfl
  cases hE : translate_book_data_heap stubProvider noneLoads 10 sampleHeap 6 with
  | none => rw [hE] at hS; exact absurd hS (by simp)
  | some p =>
    obtain ⟨h', out⟩ := p
    obtain ⟨hpre, hout, hreach⟩ :=
      claim_C6 stubProvider noneLoads 10 sampleHeap 6 h' out hE
    exact ⟨(h', out), rfl, hout, hpre 1 (by decide)⟩

/-- C7: provider detection is a pure configuration check — its result is a
function of the two credential variables alone (no network call is even
consulted), `openai` is listed iff `OPENAI_API_KEY` is set and non-empty,
`google` is listed iff `GEMINI_API_KEY` is set and non-empty, nothing else
is ever listed, and with no credentials the result is empty. -/
theorem claim_C7 (env : Env) :
    ("openai" ∈ detect_available_providers env ↔ envTruthy (env "OPENAI_API_KEY") = true) ∧
    ("google" ∈ detect_available_providers env ↔ envTruthy (env "GEMINI_API_KEY") = true) ∧
    (∀ p ∈ detect_available_providers env, p = "openai" ∨ p = "google") ∧
    (envTruthy (env "OPENAI_API_KEY") = false → envTruthy (env "GEMINI_API_KEY") = false →
      detect_available_providers env = []) ∧
    (∀ env' : Env, env "OPENAI_API_KEY" = env' "OPENAI_API_KEY" →
      env "GEMINI_API_KEY" = env' "GEMINI_API_KEY" →
      detect_available_providers env = detect_available_providers env') := by
  refine ⟨?_, ?_, ?_, ?_, ?_⟩
  · cases ho : envTruthy (env "OPENAI_API_KEY") <;>
      cases hgg : envTruthy (env "GEMINI_API_KEY") <;>
      simp [detect_available_providers, test_provider_availability, ho, hgg]
  · cases ho : envTruthy (env "OPENAI_API_KEY") <;>
      cases hgg : envTruthy (env "GEMINI_API_KEY") <;>
      simp [detect_available_providers, test_provider_availability, ho, hgg]
  · intro p hp
    cases ho : envTruthy (env "OPENAI_API_KEY") <;>
      cases hgg : envTruthy (env "GEMINI_API_KEY") <;>
      rw [detect_available_providers] at hp <;>
      simp [test_provider_availability, ho, hgg] at hp <;>
      simp [hp]
  · intro ho hgg
    simp [detect_available_providers, test_provider_availability, ho, hgg]
  · intro env' h1 h2
    simp [detect_available_providers, test_provider_availability, h1, h2]

/-- An environment with only the Gemini credential set. -/
def geminiOnlyEnv : Env := fun k => if k = "GEMINI_API_KEY" then some "key-123" else none

theorem claim_C7_witness :
    (envTruthy (geminiOnlyEnv "OPENAI_API_KEY") = false →
      envTruthy (geminiOnlyEnv "GEMINI_API_KEY") = false →
      detect_available_providers geminiOnlyEnv = []) ∧
    ("google" ∈ detect_available_providers geminiOnlyEnv ↔
      envTruthy (geminiOnlyEnv "GEMINI_API_KEY") = true) ∧
    "google" ∈ detect_available_providers geminiOnlyEnv :=
  ⟨(claim_C7 geminiOnlyEnv).2.2.2.1,
   (claim_C7 geminiOnlyEnv).2.1,
   ((claim_C7 geminiOnlyEnv).2.1).mpr (by rfl)⟩

/-- C8: every `switchProvider` request naming a provider that is not among
the detected-available ones (unknown identifiers and providers with missing
credentials alike) fails with the provider-unavailable error, and the
process-wide active provider state (`llm_service` and `current_provider`)
is returned exactly as it was. -/
theorem claim_C8 (env : Env) (st : AppState) (data : List (String × Json)) (raw : String)
    (hlookup : data.lookup "provider" = some (Json.str raw))
    (hunav : (detect_available_providers env).contains (pyLower (pyStrip raw)) = false) :
    switch_provider env st (some data) =
      (st, .badRequest ("Provider " ++ pyLower (pyStrip raw) ++ " is not available")) := by
  have hne : data.isEmpty = false := by
    cases data with
    | nil => simp [List.lookup] at hlookup
    | cons a as => rfl
  have hnm : pyLower (pyStrip raw) ∉ detect_available_providers env := by
    simpa using hunav
  simp [switch_provider, hne, hlookup, hunav, hnm]

/-- An environment with no credentials at all. -/
def emptyEnv : Env := fun _ => none

theorem claim_C8_witness :
    ([(("provider" : String), Json.str "Nonexistent ")].lookup "provider" =
      some (Json.str "Nonexistent ")) ∧
    ((detect_available_providers emptyEnv).contains (pyLower (pyStrip "Nonexistent ")) = false) ∧
    switch_provider emptyEnv { llm_service := none, current_provider := none }
      (some [("provider", Json.str "Nonexistent ")]) =
      ({ llm_service := none, current_provider := none },
       .badRequest "Provider nonexistent is not available") := by
  refine ⟨rfl, rfl, ?_⟩
  have h := claim_C8 emptyEnv { llm_service := none, current_provider := none }
    [("provider", Json.str "Nonexistent ")] "Nonexistent " rfl rfl
  rw [h]
  rfl

/-- C9: for every `generateSpeech` request with non-empty text (and an
active provider), a voice outside the fixed whitelist answers the
invalid-voice error, and — with a valid voice — a numeric speed outside
[0.25, 4.0] answers the invalid-speed error; both answers are the same for
every conceivable `generate_speech` oracle, i.e. they are produced before
any provider call.  (When both parameters are invalid the voice check runs
first, so the invalid-voice error wins.) -/
theorem claim_C9 (st : AppState) (svc : ServiceInst) (data : List (String × Json))
    (rawText : String)
    (hsvc : st.llm_service = some svc)
    (htext : data.lookup "text" = some (Json.str rawText))
    (hne : pyStrip rawText ≠ "") :
    (∀ (speech : String → String → Rat → Except String (List UInt8)) vj,
      data.lookup "voice" = some vj →
      (∀ v, vj = Json.str v → valid_voices.contains v = false) →
      text_to_speech speech st (some data) =
        .badRequest "Invalid voice. Must be one of: alloy, echo, fable, onyx, nova, shimmer") ∧
    (∀ (speech : String → String → Rat → Except String (List UInt8)) v q,
      (data.lookup "voice").getD (Json.str "alloy") = Json.str v →
      valid_voices.contains v = true →
      data.lookup "speed" = some (Json.num q) →
      ¬((0.25 : Rat) ≤ q ∧ q ≤ 4) →
      text_to_speech speech st (some data) =
        .badRequest "Speed must be between 0.25 and 4.0") := by
  have htne : (pyStrip rawText).isEmpty = false := by
    cases he : (pyStrip rawText).isEmpty with
    | false => rfl
    | true => exact absurd ((String.isEmpty_iff _).mp he) hne
  constructor
  · intro speech vj hvj hbad
    cases vj with
    | str v =>
      have hbm : v ∉ valid_voices := by simpa using hbad v rfl
      simp [text_to_speech, hsvc, htext, hvj, htne, hbm]
    | null => simp [text_to_speech, hsvc, htext, hvj, htne]
    | bool b => simp [text_to_speech, hsvc, htext, hvj, htne]
    | num q => simp [text_to_speech, hsvc, htext, hvj, htne]
    | arr es => simp [text_to_speech, hsvc, htext, hvj, htne]
    | obj fs => simp [text_to_speech, hsvc, htext, hvj, htne]
  · intro speech v q hv hvv hspeed hq
    have hvm : v ∈ valid_voices := by simpa using hvv
    have hqd : q < (0.25 : Rat) ∨ (4 : Rat) < q := by
      rcases not_and_or.mp hq with h | h
      · exact Or.inl (lt_of_not_le h)
      · exact Or.inr (lt_of_not_le h)
    simp [text_to_speech, hsvc, htext, hv, hvm, hspeed, htne, hqd]

theorem claim_C9_witness :
    (({ llm_service := some (.gpt "k" "gpt-4o-mini"), current_provider := none } : AppState).llm_service
      = some (.gpt "k" "gpt-4o-mini")) ∧
    ([(("text" : String), Json.str "Hallo"), ("voice", Json.str "invalid")].lookup "text"
      = some (Json.str "Hallo")) ∧
    pyStrip "Hallo" ≠ "" ∧
    text_to_speech (fun _ _ _ => .error "no calls")
      { llm_service := some (.gpt "k" "gpt-4o-mini"), current_provider := none }
      (some [("text", Json.str "Hallo"), ("voice", Json.str "invalid")]) =
      .badRequest "Invalid voice. Must be one of: alloy, echo, fable, onyx, nova, shimmer" := by
  refine ⟨rfl, rfl, by decide, ?_⟩
  exact (claim_C9 { llm_service := some (.gpt "k" "gpt-4o-mini"), current_provider := none }
    (.gpt "k" "gpt-4o-mini") [("text", Json.str "Hallo"), ("voice", Json.str "invalid")]
    "Hallo" rfl rfl (by decide)).1
    (fun _ _ _ => .error "no calls") (Json.str "invalid") rfl
    (fun v hv => by cases hv; rfl)

theorem lookup_pair_mem {β} : ∀ (l : List (String × β)) (k : String) (v : β),
    l.lookup k = some v → (k, v) ∈ l
  | [], k, v, h => by simp [List.lookup] at h
  | (k', v') :: rest, k, v, h => by
    cases hk : (k == k') with
    | true =>
      simp only [List.lookup, hk] at h
      cases h
      have : k = k' := by simpa using hk
      simp [this]
    | false =>
      simp only [List.lookup, hk] at h
      simp [lookup_pair_mem rest k v h]

theorem translated_metadata_spec (P : Provider) (md : Metadata) :
    (∀ kv ∈ translated_metadata P md,
      kv.1 = "title" ∨ kv.1 = "author" ∨ kv.1 = "description" ∨ kv.1 = "genre") ∧
    (((translated_metadata P md).lookup "title").isSome ↔ (md.lookup "title").isSome) ∧
    (((translated_metadata P md).lookup "author").isSome ↔ (md.lookup "author").isSome) ∧
    (((translated_metadata P md).lookup "description").isSome ↔ (md.lookup "description").isSome) ∧
    (((translated_metadata P md).lookup "genre").isSome ↔ (md.lookup "genre").isSome) := by
  unfold translated_metadata
  cases h1 : md.lookup "title" <;> cases h2 : md.lookup "author" <;>
    cases h3 : md.lookup "description" <;> cases h4 : md.lookup "genre" <;>
    simp [List.lookup]

/-- C10 (implicit): for every completed translate call with metadata, the
returned metadata holds at most the keys title, author, description, genre
(in particular every extra input key, e.g. `year` or `difficulty`, is
dropped), and each of the four is present iff it is present in the input
metadata. -/
theorem claim_C10 (P : Provider) (loads : String → Option Json) (book : BookData)
    (r : TranslateResponse) (md : Metadata)
    (hmd : book.metadata = some md)
    (hok : LLMService.translate P loads book = .ok r) :
    ∃ md', r.metadata = some md' ∧
      (∀ kv ∈ md', kv.1 = "title" ∨ kv.1 = "author" ∨ kv.1 = "description" ∨ kv.1 = "genre") ∧
      (∀ k, (k = "title" ∨ k = "author" ∨ k = "description" ∨ k = "genre") →
        ((md'.lookup k).isSome ↔ (md.lookup k).isSome)) := by
  have hok' : translate_book_data P loads book = .ok r := hok
  obtain ⟨hprov, hmdr, hlen, hpars⟩ := translate_book_data_ok hok'
  rw [hmd] at hmdr
  refine ⟨translated_metadata P md, by simpa using hmdr,
    (translated_metadata_spec P md).1, ?_⟩
  intro k hk
  rcases hk with rfl | rfl | rfl | rfl
  · exact (translated_metadata_spec P md).2.1
  · exact (translated_metadata_spec P md).2.2.1
  · exact (translated_metadata_spec P md).2.2.2.1
  · exact (translated_metadata_spec P md).2.2.2.2

/-- A zero-paragraph book whose metadata carries an extra `year` key. -/
def metaBook : BookData :=
  { metadata := some [("title", Json.str "Faust"), ("year", Json.num 1808)],
    page_data := { paragraphs := [] } }

/-- The translation of `metaBook` under the stubs: `year` is dropped,
`title` is the stub's translation. -/
def metaResult : TranslateResponse :=
  { page_data := { paragraphs := [] },
    provider := "stub",
    metadata := some [("title", Json.str "stub response")] }

theorem claim_C10_witness :
    metaBook.metadata = some [("title", Json.str "Faust"), ("year", Json.num 1808)] ∧
    ∃ md', metaResult.metadata = some md' ∧
      (∀ kv ∈ md', kv.1 = "title" ∨ kv.1 = "author" ∨ kv.1 = "description" ∨ kv.1 = "genre") ∧
      (∀ k, (k = "title" ∨ k = "author" ∨ k = "description" ∨ k = "genre") →
        ((md'.lookup k).isSome ↔
          (([("title", Json.str "Faust"), ("year", Json.num 1808)] : Metadata).lookup k).isSome)) :=
  ⟨rfl, claim_C10 stubProvider noneLoads metaBook metaResult
    [("title", Json.str "Faust"), ("year", Json.num 1808)] rfl rfl⟩
